import Mathlib

/-!
# Instruction semantics of the 6502 core (`source/Instructions.c`)

A shallow embedding of the instruction routines of `Instructions.c`.

* C `byte` values are natural numbers below 256, C `word` values natural
  numbers below 65536.  Every store into a `byte` or `word` object is made
  explicit with `toByte` / `toWord` (or the `Int` versions when the C
  expression can be negative before the conversion).
* The processor record carries its bus callbacks, as the C record does.  A
  callback receives the bus owner `sys` and returns the new bus owner, so a
  read may have side effects.
* `assert` is modelled by `Option`: `none` is the abort of a failed assertion.
* The flags are booleans; where C uses a flag as an integer it is 0 or 1
  (`flagVal`).  The cycle counter is an unbounded natural number.
-/

namespace Instructions

/-! ## Types and constants of `Cpu6502.h` -/

/-- Modelled from the spec: the header `Cpu6502.h` declares `byte`; the spec
says registers are 8-bit.  Conversion of a non-negative C integer to `byte`. -/
def toByte (n : Nat) : Nat := n % 256

/-- Modelled from the spec: the header `Cpu6502.h` declares `word`; the spec
says `pc` is 16-bit.  Conversion of a non-negative C integer to `word`. -/
def toWord (n : Nat) : Nat := n % 65536

/-- Conversion of a possibly negative C `int` to `byte` (reduction modulo 256). -/
def toByteI (i : Int) : Nat := (i % 256).toNat

/-- Conversion of a possibly negative C `int` to `word` (reduction modulo 65536). -/
def toWordI (i : Int) : Nat := (i % 65536).toNat

/-- Modelled from the spec: the constant `sign_bit` of `Cpu6502.h`, the mask
`0x80` of the spec's `negative = (result & 0x80) != 0`. -/
def sign_bit : Nat := 0x80

/-- Modelled from the spec: the constant `bit0` of `Cpu6502.h` (mask of bit 0). -/
def bit0 : Nat := 0x01

/-- Modelled from the spec: the constant `bit6` of `Cpu6502.h`, the mask `0x40`
of the spec's `overflow = (value & 0x40) != 0`. -/
def bit6 : Nat := 0x40

/-- Modelled from the spec: the constant `bit7` of `Cpu6502.h` (mask of bit 7). -/
def bit7 : Nat := 0x80

/-- Modelled from the spec: the `status` member of the processor record in
`Cpu6502.h`, "six independent boolean flags". -/
structure Status where
  carry : Bool
  zero : Bool
  interrupt_disable : Bool
  decimal_mode : Bool
  overflow : Bool
  negative : Bool
  deriving DecidableEq, Repr

/-- Modelled from the spec: the processor record `Cpu6502` of `Cpu6502.h`:
registers `a x y sp` (bytes), `pc` (word), the flags, the cycle counter, the
bus owner `sys` and the two bus callbacks. -/
structure Cpu6502 (σ : Type) where
  a : Nat
  x : Nat
  y : Nat
  sp : Nat
  pc : Nat
  status : Status
  cycles : Nat
  sys : σ
  read_memory : σ → Nat → Nat × σ
  write_memory : σ → Nat → Nat → σ

variable {σ : Type}

/-- The call `cpu->read_memory( cpu->sys, address )`: the address argument is
converted to `word`, the result is a `byte`, the bus owner may change. -/
def Cpu6502.read (cpu : Cpu6502 σ) (address : Nat) : Nat × Cpu6502 σ :=
  let r := cpu.read_memory cpu.sys (toWord address)
  (toByte r.1, { cpu with sys := r.2 })

/-- The call `cpu->write_memory( cpu->sys, address, value )`. -/
def Cpu6502.write (cpu : Cpu6502 σ) (address : Nat) (value : Nat) : Cpu6502 σ :=
  { cpu with sys := cpu.write_memory cpu.sys (toWord address) (toByte value) }

/-- The value of a flag when it is used as an integer operand. -/
def flagVal (b : Bool) : Nat := if b then 1 else 0

/-! ## The instruction routines -/

/-- The C routine `ADC`. -/
def ADC (cpu : Cpu6502 σ) (value : Nat) : Cpu6502 σ :=
  let sum := toWord (cpu.a + value + flagVal cpu.status.carry)
  let carry := decide (sum > 0xFF)
  let overflow := ((cpu.a ^^^ sum) &&& (value ^^^ sum) &&& sign_bit) != 0
  let a := toByte (sum &&& 0xFF)
  { cpu with
    a := a
    status := { cpu.status with
      carry := carry
      overflow := overflow
      zero := a == 0
      negative := (a &&& sign_bit) != 0 } }

/-- The C routine `SBC`. -/
def SBC (cpu : Cpu6502 σ) (value : Nat) : Cpu6502 σ :=
  let diff := toWordI ((cpu.a : Int) - (value : Int) - (flagVal (!cpu.status.carry) : Int))
  let carry := decide (diff < 0x100)
  let overflow := ((cpu.a ^^^ value) &&& (cpu.a ^^^ diff) &&& sign_bit) != 0
  let a := toByte (diff &&& 0xFF)
  { cpu with
    a := a
    status := { cpu.status with
      carry := carry
      overflow := overflow
      zero := a == 0
      negative := (a &&& sign_bit) != 0 } }

/-- The C routine `Branch` (BEQ, BNE, BPL, BMI, BVS, BVC, BCS, BCC). -/
def Branch (cpu : Cpu6502 σ) (flag condition jump : Nat) : Cpu6502 σ :=
  let cpu := { cpu with cycles := 2 }
  if flag = condition then
    let cpu := { cpu with cycles := cpu.cycles + 1 }
    let cpu := { cpu with pc := toWord (cpu.pc + 2) }
    let pc_page := toByte (cpu.pc >>> 8)
    let cpu :=
      if (jump &&& sign_bit) ≠ 0 then
        { cpu with pc := toWordI ((cpu.pc : Int) + ((jump : Int) - 0x100)) }
      else
        { cpu with pc := toWord (cpu.pc + jump) }
    if pc_page ≠ cpu.pc >>> 8 then
      { cpu with cycles := cpu.cycles + 1 }
    else
      cpu
  else
    { cpu with pc := toWord (cpu.pc + 2) }

/-- The C routine `JMPind`. -/
def JMPind (cpu : Cpu6502 σ) (ptr_lowbyte : Nat) : Cpu6502 σ :=
  let cpu := { cpu with cycles := 5 }
  let r := cpu.read (cpu.pc + 2)
  let ptr_highbyte := toWord (r.1 <<< 8)
  let cpu := r.2
  let r := cpu.read (ptr_highbyte ||| ptr_lowbyte)
  let cpu := { r.2 with pc := toWord r.1 }
  let ptr_lowbyte := toByte (ptr_lowbyte + 1)
  let r := cpu.read (ptr_highbyte ||| ptr_lowbyte)
  { r.2 with pc := toWord (r.2.pc ||| (r.1 <<< 8)) }

/-- The C routine `push`; `none` is the abort of its assertion. -/
def push (cpu : Cpu6502 σ) (value : Nat) : Option (Cpu6502 σ) :=
  let cpu := cpu.write (0x100 + cpu.sp) value
  let cpu := { cpu with sp := toByteI ((cpu.sp : Int) - 1) }
  if (0 : Int) ≤ (cpu.sp : Int) ∧ cpu.sp ≤ 0xFF then some cpu else none

/-- The C routine `pull`; `none` is the abort of its assertion. -/
def pull (cpu : Cpu6502 σ) : Option (Nat × Cpu6502 σ) :=
  let cpu := { cpu with sp := toByte (cpu.sp + 1) }
  if (0 : Int) ≤ (cpu.sp : Int) ∧ cpu.sp ≤ 0xFF then some (cpu.read (0x100 + cpu.sp)) else none

/-- The C routine `pack_status`. -/
def pack_status (cpu : Cpu6502 σ) (break_flag : Nat) : Nat :=
  toByte
    (flagVal cpu.status.carry |||
     (flagVal cpu.status.zero <<< 1) |||
     (flagVal cpu.status.interrupt_disable <<< 2) |||
     (flagVal cpu.status.decimal_mode <<< 3) |||
     (break_flag <<< 4) |||
     (1 <<< 5) |||
     (flagVal cpu.status.overflow <<< 6) |||
     (flagVal cpu.status.negative <<< 7))

/-- The C routine `unpack_status`. -/
def unpack_status (cpu : Cpu6502 σ) (status : Nat) : Cpu6502 σ :=
  { cpu with
    status :=
      { carry := (status &&& (1 <<< 0)) != 0
        zero := (status &&& (1 <<< 1)) != 0
        interrupt_disable := (status &&& (1 <<< 2)) != 0
        decimal_mode := (status &&& (1 <<< 3)) != 0
        overflow := (status &&& (1 <<< 6)) != 0
        negative := (status &&& (1 <<< 7)) != 0 } }

/-- The C routine `JSR`. -/
def JSR (cpu : Cpu6502 σ) (address_lowbyte : Nat) : Option (Cpu6502 σ) := do
  let cpu := { cpu with cycles := 6 }
  let cpu := { cpu with pc := toWord (cpu.pc + 2) }
  let cpu ← push cpu (toByte (cpu.pc >>> 8))
  let cpu ← push cpu (toByte (cpu.pc &&& 0xFF))
  let address := toWord address_lowbyte
  let r := cpu.read cpu.pc
  let address := toWord (address ||| (r.1 <<< 8))
  pure { r.2 with pc := address }

/-- The C routine `RTS`. -/
def RTS (cpu : Cpu6502 σ) : Option (Cpu6502 σ) := do
  let cpu := { cpu with cycles := 6 }
  let r ← pull cpu
  let cpu := { r.2 with pc := toWord r.1 }
  let r ← pull cpu
  let cpu := { r.2 with pc := toWord (r.2.pc ||| (r.1 <<< 8)) }
  pure { cpu with pc := toWord (cpu.pc + 1) }

/-- The C routine `LSR`. -/
def LSR (cpu : Cpu6502 σ) (address : Nat) : Cpu6502 σ :=
  let cpu := { cpu with cycles := cpu.cycles + 2 }
  let r := cpu.read address
  let value := r.1
  let cpu := r.2
  let cpu := { cpu with status := { cpu.status with carry := (value &&& bit0) != 0 } }
  let value := toByte (value >>> 1)
  let cpu := { cpu with status := { cpu.status with zero := value == 0 } }
  let cpu := { cpu with status := { cpu.status with negative := (value &&& sign_bit) != 0 } }
  cpu.write address value

/-- The C routine `ROL`. -/
def ROL (cpu : Cpu6502 σ) (address : Nat) : Cpu6502 σ :=
  let cpu := { cpu with cycles := cpu.cycles + 2 }
  let r := cpu.read address
  let value := r.1
  let cpu := r.2
  let old_carry := flagVal cpu.status.carry
  let cpu := { cpu with status := { cpu.status with carry := (value &&& bit7) != 0 } }
  let value := toByte ((value <<< 1) ||| old_carry)
  let cpu := { cpu with status := { cpu.status with zero := value == 0 } }
  let cpu := { cpu with status := { cpu.status with negative := (value &&& sign_bit) != 0 } }
  cpu.write address value

/-- The C routine `ROR`. -/
def ROR (cpu : Cpu6502 σ) (address : Nat) : Cpu6502 σ :=
  let cpu := { cpu with cycles := cpu.cycles + 2 }
  let r := cpu.read address
  let value := r.1
  let cpu := r.2
  let old_carry := flagVal cpu.status.carry
  let cpu := { cpu with status := { cpu.status with carry := (value &&& bit7) != 0 } }
  let value := toByte ((value >>> 1) ||| (old_carry <<< 7))
  let cpu := { cpu with status := { cpu.status with zero := value == 0 } }
  let cpu := { cpu with status := { cpu.status with negative := (value &&& sign_bit) != 0 } }
  cpu.write address value

/-- The C routine `CPr` (CMP, CPX, CPY).  `registre - value` is a C `int` and
may be negative; `&` on it is the two's complement `Int.land`. -/
def CPr (cpu : Cpu6502 σ) (registre value : Nat) : Cpu6502 σ :=
  let cpu := { cpu with status := { cpu.status with zero := registre == value } }
  let cpu := { cpu with status := { cpu.status with carry := decide (registre ≥ value) } }
  { cpu with status := { cpu.status with
      negative := Int.land ((registre : Int) - (value : Int)) (sign_bit : Int) != 0 } }

/-- The C routine `PHP`. -/
def PHP (cpu : Cpu6502 σ) : Option (Cpu6502 σ) :=
  let cpu := { cpu with cycles := 1 }
  push cpu (pack_status cpu 1)

/-- The C routine `IRQ` (the diagnostic `printf` of the disassembler build is
left out). -/
def IRQ (cpu : Cpu6502 σ) (brk : Nat) : Option (Cpu6502 σ) := do
  let cpu ← push cpu (toByte (cpu.pc >>> 8))
  let cpu ← push cpu (toByte (cpu.pc &&& 0xFF))
  let cpu ← push cpu (pack_status cpu brk)
  let cpu := { cpu with status := { cpu.status with decimal_mode := false } }
  let cpu := { cpu with status := { cpu.status with interrupt_disable := true } }
  let r := cpu.read 0xFFFE
  let cpu := { r.2 with pc := toWord r.1 }
  let r := cpu.read 0xFFFF
  pure { r.2 with pc := toWord (r.2.pc ||| (r.1 <<< 8)) }

/-- The C routine `RTI`. -/
def RTI (cpu : Cpu6502 σ) : Option (Cpu6502 σ) := do
  let cpu := { cpu with cycles := 6 }
  let r ← pull cpu
  let cpu := unpack_status r.2 r.1
  let r ← pull cpu
  let cpu := { r.2 with pc := toWord r.1 }
  let r ← pull cpu
  pure { r.2 with pc := toWord (r.2.pc ||| (r.1 <<< 8)) }

/-- The C routine `Cpu6502_IRQ`. -/
def Cpu6502_IRQ (cpu : Cpu6502 σ) : Option (Cpu6502 σ) :=
  if cpu.status.interrupt_disable then some cpu else IRQ cpu 0

/-- The C routine `Cpu6502_NMI` (the diagnostic `printf` of the disassembler
build is left out). -/
def Cpu6502_NMI (cpu : Cpu6502 σ) : Option (Cpu6502 σ) := do
  let cpu ← push cpu (toByte (cpu.pc >>> 8))
  let cpu ← push cpu (toByte (cpu.pc &&& 0xFF))
  let cpu ← push cpu (pack_status cpu 0)
  let cpu := { cpu with status := { cpu.status with decimal_mode := false } }
  let cpu := { cpu with status := { cpu.status with interrupt_disable := true } }
  let r := cpu.read 0xFFFA
  let cpu := { r.2 with pc := toWord r.1 }
  let r := cpu.read 0xFFFB
  pure { r.2 with pc := toWord (r.2.pc ||| (r.1 <<< 8)) }

/-! ## A bus that behaves as plain RAM -/

/-- Reading plain RAM returns the stored byte and changes nothing. -/
def ramRead (m : Nat → Nat) (address : Nat) : Nat × (Nat → Nat) := (m address, m)

/-- Writing plain RAM replaces the byte stored at the address. -/
def ramWrite (m : Nat → Nat) (address value : Nat) : Nat → Nat :=
  fun i => if i = address then value else m i

/-- The processor is attached to plain RAM whose cells hold bytes. -/
def Cpu6502.onRam (cpu : Cpu6502 (Nat → Nat)) : Prop :=
  cpu.read_memory = ramRead ∧ cpu.write_memory = ramWrite ∧ ∀ i, cpu.sys i < 256

/-- A processor record attached to plain RAM, all flags clear. -/
def ramCpu (a x y sp pc cycles : Nat) (m : Nat → Nat) : Cpu6502 (Nat → Nat) :=
  { a := a, x := x, y := y, sp := sp, pc := pc
    status := ⟨false, false, false, false, false, false⟩
    cycles := cycles, sys := m, read_memory := ramRead, write_memory := ramWrite }

/-- A processor record attached to plain RAM with the given flags. -/
def flagCpu (st : Status) : Cpu6502 (Nat → Nat) :=
  { ramCpu 0 0 0 0xFF 0 0 (fun _ => 0) with status := st }

/-- Memory of the `JMPind` example: the pointer high byte `$10` at `$2002`,
and distinct bytes at `$10FF`, `$1000` and `$1100`. -/
def jmpindMem : Nat → Nat := fun i =>
  if i = 0x2002 then 0x10 else if i = 0x10FF then 0x34 else if i = 0x1000 then 0x12
  else if i = 0x1100 then 0x56 else 0

/-- Memory of the `JSR` example: `$12` at `$1002`. -/
def jsrMem : Nat → Nat := fun i => if i = 0x1002 then 0x12 else 0

/-- The interrupt entry protocol in the spec's words (section 4.7): push the
`pc` high byte, the `pc` low byte, then the status packed with the given break
flag; clear decimal_mode; set interrupt_disable; load `pc` little-endian from
`vector` and `vector + 1`.  The bus is called in exactly that order. -/
def interruptEntrySpec (cpu : Cpu6502 σ) (break_flag vector : Nat) : Cpu6502 σ :=
  let s1 := cpu.write_memory cpu.sys (0x100 + cpu.sp) (cpu.pc / 256)
  let s2 := cpu.write_memory s1 (0x100 + (cpu.sp + 255) % 256) (cpu.pc % 256)
  let s3 := cpu.write_memory s2 (0x100 + (cpu.sp + 254) % 256) (pack_status cpu break_flag)
  let lo := cpu.read_memory s3 vector
  let hi := cpu.read_memory lo.2 (vector + 1)
  { cpu with
    sp := (cpu.sp + 253) % 256
    status := { cpu.status with decimal_mode := false, interrupt_disable := true }
    pc := lo.1 % 256 + 256 * (hi.1 % 256)
    sys := hi.2 }

/-! ## Specification-side notions -/

/-- A byte read as a two's complement number. -/
def signed8 (b : Nat) : Int := if b < 128 then (b : Int) else (b : Int) - 256

/-- Bit 7 of a number. -/
def bit7set (n : Nat) : Prop := n / 128 % 2 = 1

instance (n : Nat) : Decidable (bit7set n) := by unfold bit7set; infer_instance

/-- The layout of a pushed status byte: bit 5 set, bit 4 the break flag, and
bits 0, 1, 2, 3, 6, 7 the flags carry, zero, interrupt_disable, decimal_mode,
overflow, negative of `cpu`. -/
def statusByteLayout (cpu : Cpu6502 σ) (byte : Nat) (brk : Bool) : Prop :=
  byte.testBit 5 = true ∧
  byte.testBit 4 = brk ∧
  byte.testBit 0 = cpu.status.carry ∧
  byte.testBit 1 = cpu.status.zero ∧
  byte.testBit 2 = cpu.status.interrupt_disable ∧
  byte.testBit 3 = cpu.status.decimal_mode ∧
  byte.testBit 6 = cpu.status.overflow ∧
  byte.testBit 7 = cpu.status.negative

/-! ## Bit-level lemmas -/

theorem and_sign_bit_ne_zero (n : Nat) : ((n &&& sign_bit) != 0) = n.testBit 7 := by
  have h : n &&& sign_bit = if n.testBit 7 then 128 else 0 := by
    apply Nat.eq_of_testBit_eq
    intro i
    have h128 : (128 : Nat) = 2 ^ 7 := by norm_num
    by_cases hb : n.testBit 7
    · simp only [hb, if_true, sign_bit, Nat.testBit_and]
      rw [show (0x80 : Nat) = 2 ^ 7 by norm_num, Nat.testBit_two_pow]
      by_cases hi : 7 = i
      · subst hi; simp [hb]
      · simp [hi]
    · simp only [hb, sign_bit, Nat.testBit_and]
      rw [show (0x80 : Nat) = 2 ^ 7 by norm_num, Nat.testBit_two_pow]
      by_cases hi : 7 = i
      · subst hi; simp [hb]
      · simp [hi]
  rw [h]
  by_cases hb : n.testBit 7 <;> simp [hb]

theorem testBit7_iff (n : Nat) : n.testBit 7 = decide (n / 128 % 2 = 1) := by
  rw [Nat.testBit_to_div_mod]

theorem and_0xFF (n : Nat) : n &&& 0xFF = n % 256 := by
  have := Nat.and_pow_two_sub_one_eq_mod n 8
  norm_num at this
  exact this

theorem status_bits_roundtrip (c z i d v n : Bool) (b : Nat) (hb : b = 0 ∨ b = 1) :
    ((toByte (flagVal c ||| (flagVal z <<< 1) ||| (flagVal i <<< 2) ||| (flagVal d <<< 3) |||
        (b <<< 4) ||| (1 <<< 5) ||| (flagVal v <<< 6) ||| (flagVal n <<< 7)) &&& (1 <<< 0)) != 0) = c ∧
    ((toByte (flagVal c ||| (flagVal z <<< 1) ||| (flagVal i <<< 2) ||| (flagVal d <<< 3) |||
        (b <<< 4) ||| (1 <<< 5) ||| (flagVal v <<< 6) ||| (flagVal n <<< 7)) &&& (1 <<< 1)) != 0) = z ∧
    ((toByte (flagVal c ||| (flagVal z <<< 1) ||| (flagVal i <<< 2) ||| (flagVal d <<< 3) |||
        (b <<< 4) ||| (1 <<< 5) ||| (flagVal v <<< 6) ||| (flagVal n <<< 7)) &&& (1 <<< 2)) != 0) = i ∧
    ((toByte (flagVal c ||| (flagVal z <<< 1) ||| (flagVal i <<< 2) ||| (flagVal d <<< 3) |||
        (b <<< 4) ||| (1 <<< 5) ||| (flagVal v <<< 6) ||| (flagVal n <<< 7)) &&& (1 <<< 3)) != 0) = d ∧
    ((toByte (flagVal c ||| (flagVal z <<< 1) ||| (flagVal i <<< 2) ||| (flagVal d <<< 3) |||
        (b <<< 4) ||| (1 <<< 5) ||| (flagVal v <<< 6) ||| (flagVal n <<< 7)) &&& (1 <<< 6)) != 0) = v ∧
    ((toByte (flagVal c ||| (flagVal z <<< 1) ||| (flagVal i <<< 2) ||| (flagVal d <<< 3) |||
        (b <<< 4) ||| (1 <<< 5) ||| (flagVal v <<< 6) ||| (flagVal n <<< 7)) &&& (1 <<< 7)) != 0) = n := by
  rcases hb with rfl | rfl <;>
    cases c <;> cases z <;> cases i <;> cases d <;> cases v <;> cases n <;> decide

theorem and_sign_bit_ne_zero_iff (n : Nat) : (n &&& sign_bit) ≠ 0 ↔ n / 128 % 2 = 1 := by
  have h := and_sign_bit_ne_zero n
  rw [testBit7_iff] at h
  constructor
  · intro hn
    have : ((n &&& sign_bit) != 0) = true := by simpa using hn
    rw [h] at this
    simpa using this
  · intro hn
    have : ((n &&& sign_bit) != 0) = true := by rw [h]; simpa using hn
    simpa using this

theorem shr8 (n : Nat) : n >>> 8 = n / 256 := by
  rw [Nat.shiftRight_eq_div_pow]

theorem mul256_or (hi lo : Nat) (h : lo < 256) : hi * 256 ||| lo = hi * 256 + lo := by
  have := Nat.mul_add_lt_is_or (show lo < 2 ^ 8 by omega) hi
  rw [Nat.mul_comm hi 256]
  exact this.symm

theorem bytes_mod_word (hi lo : Nat) (hh : hi < 256) (hl : lo < 256) :
    (hi * 256 + lo) % 65536 = hi * 256 + lo :=
  Nat.mod_eq_of_lt (by omega)

theorem or_shl8 (lo hi : Nat) (h : lo < 256) : lo ||| (hi <<< 8) = hi * 256 + lo := by
  have := Nat.mul_add_lt_is_or (show lo < 2 ^ 8 by omega) hi
  rw [Nat.shiftLeft_eq, Nat.lor_comm, Nat.mul_comm, ← this]

theorem toByte_lt (n : Nat) : toByte n < 256 := by
  unfold toByte; omega

theorem toByteI_lt (i : Int) : toByteI i < 256 := by
  unfold toByteI; omega

/-- The assertion of `push` holds on every state: `push` never aborts. -/
theorem push_eq (cpu : Cpu6502 σ) (value : Nat) :
    push cpu value =
      some { cpu.write (0x100 + cpu.sp) value with sp := toByteI ((cpu.sp : Int) - 1) } := by
  have h := toByteI_lt ((cpu.sp : Int) - 1)
  simp only [push, Cpu6502.write]
  rw [if_pos]
  exact ⟨by omega, by omega⟩

/-- The assertion of `pull` holds on every state: `pull` never aborts. -/
theorem pull_eq (cpu : Cpu6502 σ) :
    pull cpu =
      some (Cpu6502.read { cpu with sp := toByte (cpu.sp + 1) } (0x100 + toByte (cpu.sp + 1))) := by
  have h := toByte_lt (cpu.sp + 1)
  simp only [pull]
  rw [if_pos]
  exact ⟨by omega, by omega⟩

theorem xor_0xFF (v : Nat) (hv : v < 256) : v ^^^ 0xFF = 255 - v := by
  apply Nat.eq_of_testBit_eq
  intro i
  have h1 := Nat.testBit_two_pow_sub_succ (show v < 2 ^ 8 by omega) i
  have h2 := Nat.testBit_two_pow_sub_one 8 i
  norm_num at h1 h2
  rw [show 256 - (v + 1) = 255 - v by omega] at h1
  rw [Nat.testBit_xor, h2, h1]
  by_cases hi : i < 8
  · simp [hi]
  · have : v.testBit i = false :=
      Nat.testBit_lt_two_pow (lt_of_lt_of_le (show v < 2 ^ 8 by omega)
        (Nat.pow_le_pow_right (by decide) (by omega)))
    simp [hi, this]

theorem ldiff_sign_bit (m : Nat) : (Nat.ldiff 128 m != 0) = !m.testBit 7 := by
  have h : Nat.ldiff (2 ^ 7) m = if m.testBit 7 then 0 else 2 ^ 7 := by
    apply Nat.eq_of_testBit_eq
    intro i
    rw [Nat.testBit_ldiff, Nat.testBit_two_pow]
    cases hb : m.testBit 7
    · simp only [Bool.false_eq_true, if_false, Nat.testBit_two_pow, Bool.not_false,
        Bool.and_true]
      by_cases hi : 7 = i
      · subst hi; simp [hb]
      · simp [hi]
    · simp only [if_true, Nat.zero_testBit, Bool.not_true, Bool.and_false]
      by_cases hi : 7 = i
      · subst hi; simp [hb]
      · simp [hi]
  rw [show (128 : Nat) = 2 ^ 7 by norm_num, h]
  by_cases hb : m.testBit 7 <;> simp [hb]

theorem land_negSucc_natCast (m n : Nat) :
    Int.land (Int.negSucc m) (n : Int) = ((Nat.ldiff n m : Nat) : Int) := rfl

theorem land_natCast_natCast (m n : Nat) :
    Int.land (m : Int) (n : Int) = ((m &&& n : Nat) : Int) := rfl

/-- Bit 7 of the C `int` `r - v` is bit 7 of `(r - v) mod 256`. -/
theorem land_sign_bit (r v : Nat) (hr : r < 256) (hv : v < 256) :
    (Int.land ((r : Int) - (v : Int)) (sign_bit : Int) != 0) =
      decide (toByteI ((r : Int) - (v : Int)) / 128 % 2 = 1) := by
  unfold toByteI
  by_cases h : v ≤ r
  · rw [← Int.ofNat_sub h, land_natCast_natCast]
    have h2 : ((((r - v) &&& sign_bit : Nat) : Int) != 0) = (((r - v) &&& sign_bit) != 0) := by
      simp [bne]
    rw [h2, and_sign_bit_ne_zero, testBit7_iff]
    congr 1
    simp only [eq_iff_iff]
    omega
  · have e : (r : Int) - v = Int.negSucc (v - r - 1) := by
      rw [Int.negSucc_eq]; omega
    rw [e, land_negSucc_natCast]
    have h2 : (((Nat.ldiff sign_bit (v - r - 1) : Nat) : Int) != 0) =
        (Nat.ldiff 128 (v - r - 1) != 0) := by
      simp [bne, sign_bit]
    rw [h2, ldiff_sign_bit, testBit7_iff, Int.negSucc_eq]
    by_cases hb : (v - r - 1) / 128 % 2 = 1
    · simp only [hb, decide_True, Bool.not_true]
      symm
      simp only [decide_eq_false_iff_not]
      omega
    · simp only [hb, decide_False, Bool.not_false]
      symm
      simp only [decide_eq_true_eq]
      omega

theorem bit7_eq_sign_bit : bit7 = sign_bit := rfl

theorem and_bit0_ne_zero (n : Nat) : ((n &&& bit0) != 0) = decide (n % 2 = 1) := by
  have h : n &&& bit0 = n % 2 := Nat.and_one_is_mod n
  rw [h]
  by_cases h1 : n % 2 = 1
  · simp [h1]
  · have h0 : n % 2 = 0 := by omega
    simp [h0]

theorem shr1 (n : Nat) : n >>> 1 = n / 2 := by
  rw [Nat.shiftRight_eq_div_pow]

theorem ror_value (v c : Nat) (hv : v < 256) : (v >>> 1) ||| (c <<< 7) = v / 2 + 128 * c := by
  have := Nat.mul_add_lt_is_or (show v / 2 < 2 ^ 7 by omega) c
  rw [shr1, Nat.shiftLeft_eq, Nat.lor_comm, Nat.mul_comm, ← this]
  omega

theorem rol_value (v c : Nat) (hc : c ≤ 1) : (v <<< 1) ||| c = 2 * v + c := by
  have := Nat.mul_add_lt_is_or (show c < 2 ^ 1 by omega) v
  rw [Nat.shiftLeft_eq, Nat.mul_comm, ← this]

theorem flagVal_true : flagVal true = 1 := rfl

theorem flagVal_false : flagVal false = 0 := rfl

theorem flagVal_le (b : Bool) : flagVal b ≤ 1 := by
  cases b <;> simp [flagVal]

theorem flagVal_eq_one (b : Bool) : flagVal b = 1 ↔ b = true := by
  cases b <;> simp [flagVal]

theorem pack_status_lt (cpu : Cpu6502 σ) (b : Nat) : pack_status cpu b < 256 := by
  unfold pack_status
  exact toByte_lt _

/-- On every bus `IRQ` does not abort and follows the entry protocol with the
vector `$FFFE`. -/
theorem IRQ_eq (cpu : Cpu6502 σ) (brk : Nat) (hsp : cpu.sp < 256) (hpc : cpu.pc < 65536) :
    IRQ cpu brk = some (interruptEntrySpec cpu brk 0xFFFE) := by
  have hs1 : toByteI ((cpu.sp : Int) - 1) = (cpu.sp + 255) % 256 := by
    simp only [toByteI]; omega
  have hs2 : toByteI ((((cpu.sp + 255) % 256 : Nat) : Int) - 1) = (cpu.sp + 254) % 256 := by
    simp only [toByteI]; omega
  have hs3 : toByteI ((((cpu.sp + 254) % 256 : Nat) : Int) - 1) = (cpu.sp + 253) % 256 := by
    simp only [toByteI]; omega
  have ha1 : toWord (256 + cpu.sp) = 256 + cpu.sp := Nat.mod_eq_of_lt (by omega)
  have ha2 : toWord (256 + (cpu.sp + 255) % 256) = 256 + (cpu.sp + 255) % 256 :=
    Nat.mod_eq_of_lt (by omega)
  have ha3 : toWord (256 + (cpu.sp + 254) % 256) = 256 + (cpu.sp + 254) % 256 :=
    Nat.mod_eq_of_lt (by omega)
  have hv1 : toByte (toByte (cpu.pc / 256)) = cpu.pc / 256 := by
    simp only [toByte]; omega
  have hv2 : toByte (toByte (cpu.pc % 256)) = cpu.pc % 256 := by
    simp only [toByte]; omega
  have hv3 : ∀ c : Cpu6502 σ, toByte (pack_status c brk) = pack_status c brk :=
    fun c => Nat.mod_eq_of_lt (pack_status_lt c brk)
  have hp : ∀ l h : Nat, toWord (toWord (toByte l) ||| (toByte h <<< 8)) =
      l % 256 + 256 * (h % 256) := by
    intro l h
    have h1 : toWord (toByte l) = toByte l :=
      Nat.mod_eq_of_lt (lt_trans (toByte_lt l) (by decide))
    rw [h1, or_shl8 _ _ (toByte_lt l)]
    simp only [toWord, toByte]
    omega
  simp only [IRQ, interruptEntrySpec, push_eq, Option.bind_eq_bind, Option.some_bind,
    Option.pure_def, Cpu6502.write, Cpu6502.read, hs1, hs2, hs3, ha1, ha2, ha3, shr8, and_0xFF,
    hv1, hv2, hv3, hp]
  rfl

/-- On every bus `Cpu6502_NMI` does not abort and follows the entry protocol
with break flag 0 and the vector `$FFFA`. -/
theorem NMI_eq (cpu : Cpu6502 σ) (hsp : cpu.sp < 256) (hpc : cpu.pc < 65536) :
    Cpu6502_NMI cpu = some (interruptEntrySpec cpu 0 0xFFFA) := by
  have hs1 : toByteI ((cpu.sp : Int) - 1) = (cpu.sp + 255) % 256 := by
    simp only [toByteI]; omega
  have hs2 : toByteI ((((cpu.sp + 255) % 256 : Nat) : Int) - 1) = (cpu.sp + 254) % 256 := by
    simp only [toByteI]; omega
  have hs3 : toByteI ((((cpu.sp + 254) % 256 : Nat) : Int) - 1) = (cpu.sp + 253) % 256 := by
    simp only [toByteI]; omega
  have ha1 : toWord (256 + cpu.sp) = 256 + cpu.sp := Nat.mod_eq_of_lt (by omega)
  have ha2 : toWord (256 + (cpu.sp + 255) % 256) = 256 + (cpu.sp + 255) % 256 :=
    Nat.mod_eq_of_lt (by omega)
  have ha3 : toWord (256 + (cpu.sp + 254) % 256) = 256 + (cpu.sp + 254) % 256 :=
    Nat.mod_eq_of_lt (by omega)
  have hv1 : toByte (toByte (cpu.pc / 256)) = cpu.pc / 256 := by
    simp only [toByte]; omega
  have hv2 : toByte (toByte (cpu.pc % 256)) = cpu.pc % 256 := by
    simp only [toByte]; omega
  have hv3 : ∀ c : Cpu6502 σ, toByte (pack_status c 0) = pack_status c 0 :=
    fun c => Nat.mod_eq_of_lt (pack_status_lt c 0)
  have hp : ∀ l h : Nat, toWord (toWord (toByte l) ||| (toByte h <<< 8)) =
      l % 256 + 256 * (h % 256) := by
    intro l h
    have h1 : toWord (toByte l) = toByte l :=
      Nat.mod_eq_of_lt (lt_trans (toByte_lt l) (by decide))
    rw [h1, or_shl8 _ _ (toByte_lt l)]
    simp only [toWord, toByte]
    omega
  simp only [Cpu6502_NMI, interruptEntrySpec, push_eq, Option.bind_eq_bind, Option.some_bind,
    Option.pure_def, Cpu6502.write, Cpu6502.read, hs1, hs2, hs3, ha1, ha2, ha3, shr8, and_0xFF,
    hv1, hv2, hv3, hp]
  rfl

/-- Unpacking a status byte packed with break flag 0 or 1 gives back the flags
that were packed. -/
theorem status_unpack_pack_eq (c cpu : Cpu6502 σ) (b : Nat) (hb : b = 0 ∨ b = 1) :
    (unpack_status c (pack_status cpu b)).status = cpu.status := by
  obtain ⟨h1, h2, h3, h4, h5, h6⟩ :=
    status_bits_roundtrip cpu.status.carry cpu.status.zero cpu.status.interrupt_disable
      cpu.status.decimal_mode cpu.status.overflow cpu.status.negative b hb
  simp only [unpack_status, pack_status, h1, h2, h3, h4, h5, h6]

/-- Memory after the three writes of an interrupt entry on plain RAM. -/
theorem interruptEntrySpec_sys (cpu : Cpu6502 (Nat → Nat)) (b vector : Nat)
    (hram : cpu.onRam) :
    (interruptEntrySpec cpu b vector).sys =
      ramWrite (ramWrite (ramWrite cpu.sys (0x100 + cpu.sp) (cpu.pc / 256))
        (0x100 + (cpu.sp + 255) % 256) (cpu.pc % 256))
        (0x100 + (cpu.sp + 254) % 256) (pack_status cpu b) := by
  obtain ⟨hr, hw, _⟩ := hram
  simp only [interruptEntrySpec, hr, hw, ramRead]

/-- On plain RAM, `RTI` on a stack that holds a status byte, a `pc` low byte
and a `pc` high byte above `sp` does not abort, and unpacks them. -/
theorem RTI_on_stack (e : Cpu6502 (Nat → Nat)) (sp pc st : Nat)
    (hrd : e.read_memory = ramRead) (hesp : e.sp = (sp + 253) % 256)
    (hsp : sp < 256) (hpc : pc < 65536) (hst : st < 256)
    (h3 : e.sys (0x100 + (sp + 254) % 256) = st)
    (h2 : e.sys (0x100 + (sp + 255) % 256) = pc % 256)
    (h1 : e.sys (0x100 + sp) = pc / 256) :
    RTI e = some { e with
      cycles := 6, sp := sp, pc := pc, status := (unpack_status e st).status } := by
  have hs1 : ((sp + 253) % 256 + 1) % 256 = (sp + 254) % 256 := by omega
  have hs2 : ((sp + 254) % 256 + 1) % 256 = (sp + 255) % 256 := by omega
  have hs3 : ((sp + 255) % 256 + 1) % 256 = sp := by omega
  have ha1 : (256 + sp) % 65536 = 256 + sp := Nat.mod_eq_of_lt (by omega)
  have ha2 : (256 + (sp + 255) % 256) % 65536 = 256 + (sp + 255) % 256 :=
    Nat.mod_eq_of_lt (by omega)
  have ha3 : (256 + (sp + 254) % 256) % 65536 = 256 + (sp + 254) % 256 :=
    Nat.mod_eq_of_lt (by omega)
  have hv3 : st % 256 = st := Nat.mod_eq_of_lt hst
  have hfin : ((pc % 256 % 256) % 65536 ||| ((pc / 256 % 256) <<< 8)) % 65536 = pc := by
    rw [Nat.mod_mod, Nat.mod_eq_of_lt (show pc % 256 < 65536 by omega),
      or_shl8 _ _ (Nat.mod_lt _ (by decide))]
    omega
  simp only [RTI, pull_eq, Option.bind_eq_bind, Option.some_bind, Option.pure_def,
    Cpu6502.read, unpack_status, toWord, toByte, hrd, ramRead, hesp, hs1, hs2, hs3, ha1, ha2,
    ha3, h1, h2, h3, hv3, hfin]

/-- On plain RAM, `RTI` right after an interrupt entry does not abort and gives
back `pc`, `sp` and the flags of before the entry. -/
theorem RTI_after_entry (cpu : Cpu6502 (Nat → Nat)) (b vector : Nat)
    (hram : cpu.onRam) (hsp : cpu.sp < 256) (hpc : cpu.pc < 65536) (hb : b = 0 ∨ b = 1) :
    RTI (interruptEntrySpec cpu b vector) =
      some { interruptEntrySpec cpu b vector with
        cycles := 6, sp := cpu.sp, pc := cpu.pc, status := cpu.status } := by
  have hsys := interruptEntrySpec_sys cpu b vector hram
  have hn12 : 256 + cpu.sp ≠ 256 + (cpu.sp + 255) % 256 := by omega
  have hn13 : 256 + cpu.sp ≠ 256 + (cpu.sp + 254) % 256 := by omega
  have hn23 : 256 + (cpu.sp + 255) % 256 ≠ 256 + (cpu.sp + 254) % 256 := by omega
  have h := RTI_on_stack (interruptEntrySpec cpu b vector) cpu.sp cpu.pc (pack_status cpu b)
    hram.1 rfl hsp hpc (pack_status_lt cpu b)
    (by rw [hsys]; simp only [ramWrite, if_true])
    (by rw [hsys]; simp only [ramWrite, if_neg hn23, if_true])
    (by rw [hsys]; simp only [ramWrite, if_neg hn12, if_neg hn13, if_true])
  rw [h, status_unpack_pack_eq _ cpu b hb]

theorem status_bits_layout (c z i d v n brk : Bool) :
    (toByte (flagVal c ||| (flagVal z <<< 1) ||| (flagVal i <<< 2) ||| (flagVal d <<< 3) |||
        (flagVal brk <<< 4) ||| (1 <<< 5) ||| (flagVal v <<< 6) ||| (flagVal n <<< 7))).testBit 5
      = true ∧
    (toByte (flagVal c ||| (flagVal z <<< 1) ||| (flagVal i <<< 2) ||| (flagVal d <<< 3) |||
        (flagVal brk <<< 4) ||| (1 <<< 5) ||| (flagVal v <<< 6) ||| (flagVal n <<< 7))).testBit 4
      = brk ∧
    (toByte (flagVal c ||| (flagVal z <<< 1) ||| (flagVal i <<< 2) ||| (flagVal d <<< 3) |||
        (flagVal brk <<< 4) ||| (1 <<< 5) ||| (flagVal v <<< 6) ||| (flagVal n <<< 7))).testBit 0
      = c ∧
    (toByte (flagVal c ||| (flagVal z <<< 1) ||| (flagVal i <<< 2) ||| (flagVal d <<< 3) |||
        (flagVal brk <<< 4) ||| (1 <<< 5) ||| (flagVal v <<< 6) ||| (flagVal n <<< 7))).testBit 1
      = z ∧
    (toByte (flagVal c ||| (flagVal z <<< 1) ||| (flagVal i <<< 2) ||| (flagVal d <<< 3) |||
        (flagVal brk <<< 4) ||| (1 <<< 5) ||| (flagVal v <<< 6) ||| (flagVal n <<< 7))).testBit 2
      = i ∧
    (toByte (flagVal c ||| (flagVal z <<< 1) ||| (flagVal i <<< 2) ||| (flagVal d <<< 3) |||
        (flagVal brk <<< 4) ||| (1 <<< 5) ||| (flagVal v <<< 6) ||| (flagVal n <<< 7))).testBit 3
      = d ∧
    (toByte (flagVal c ||| (flagVal z <<< 1) ||| (flagVal i <<< 2) ||| (flagVal d <<< 3) |||
        (flagVal brk <<< 4) ||| (1 <<< 5) ||| (flagVal v <<< 6) ||| (flagVal n <<< 7))).testBit 6
      = v ∧
    (toByte (flagVal c ||| (flagVal z <<< 1) ||| (flagVal i <<< 2) ||| (flagVal d <<< 3) |||
        (flagVal brk <<< 4) ||| (1 <<< 5) ||| (flagVal v <<< 6) ||| (flagVal n <<< 7))).testBit 7
      = n := by
  cases c <;> cases z <;> cases i <;> cases d <;> cases v <;> cases n <;> cases brk <;> decide

theorem pack_status_layout (cpu : Cpu6502 σ) (brk : Bool) :
    statusByteLayout cpu (pack_status cpu (flagVal brk)) brk :=
  status_bits_layout cpu.status.carry cpu.status.zero cpu.status.interrupt_disable
    cpu.status.decimal_mode cpu.status.overflow cpu.status.negative brk

/-- The cell that receives the third byte of an interrupt entry on plain RAM. -/
theorem interruptEntrySpec_status_cell (cpu : Cpu6502 (Nat → Nat)) (b vector : Nat)
    (hram : cpu.onRam) :
    (interruptEntrySpec cpu b vector).sys (0x100 + (cpu.sp + 254) % 256) = pack_status cpu b := by
  rw [interruptEntrySpec_sys cpu b vector hram]
  simp only [ramWrite, if_true]

/-- On every bus `PHP` does not abort: it writes the status packed with break
flag 1 at `0x100 + sp`. -/
theorem PHP_eq (cpu : Cpu6502 σ) (hsp : cpu.sp < 256) :
    PHP cpu = some { cpu with
      cycles := 1
      sp := (cpu.sp + 255) % 256
      sys := cpu.write_memory cpu.sys (0x100 + cpu.sp) (pack_status cpu 1) } := by
  have hs1 : toByteI ((cpu.sp : Int) - 1) = (cpu.sp + 255) % 256 := by
    simp only [toByteI]; omega
  have ha1 : toWord (256 + cpu.sp) = 256 + cpu.sp := Nat.mod_eq_of_lt (by omega)
  have hv3 : ∀ c : Cpu6502 σ, toByte (pack_status c 1) = pack_status c 1 :=
    fun c => Nat.mod_eq_of_lt (pack_status_lt c 1)
  simp only [PHP, push_eq, Cpu6502.write, hs1, ha1, hv3]
  rfl

/-! ## Theorems -/

/-- C1: for 8-bit `a` and `value` and either carry-in, after `ADC` the
accumulator is `(a + value + carry_in) mod 256`, carry is set iff
`a + value + carry_in > 255`, zero iff the new accumulator is 0 and negative
iff bit 7 of the new accumulator is set. -/
theorem ADC_result_carry (cpu : Cpu6502 σ) (value : Nat)
    (ha : cpu.a < 256) (hv : value < 256) :
    (ADC cpu value).a = (cpu.a + value + flagVal cpu.status.carry) % 256 ∧
    ((ADC cpu value).status.carry = true ↔
      cpu.a + value + flagVal cpu.status.carry > 255) ∧
    ((ADC cpu value).status.zero = true ↔ (ADC cpu value).a = 0) ∧
    ((ADC cpu value).status.negative = true ↔ bit7set (ADC cpu value).a) := by
  have hc : flagVal cpu.status.carry ≤ 1 := by
    unfold flagVal; split <;> omega
  simp only [ADC, and_sign_bit_ne_zero, testBit7_iff, and_0xFF, toWord, toByte, bit7set,
    decide_eq_true_eq, beq_iff_eq]
  refine ⟨by omega, ?_⟩
  rw [Nat.mod_eq_of_lt (by omega)]
  simp

theorem ADC_result_carry_witness :
    (ramCpu 0xF0 0 0 0xFF 0 0 (fun _ => 0)).a < 256 ∧ 0x20 < 256 ∧
    (ADC (ramCpu 0xF0 0 0 0xFF 0 0 (fun _ => 0)) 0x20).a =
      ((ramCpu 0xF0 0 0 0xFF 0 0 (fun _ => 0)).a + 0x20 +
        flagVal (ramCpu 0xF0 0 0 0xFF 0 0 (fun _ => 0)).status.carry) % 256 :=
  ⟨by decide, by decide,
    (ADC_result_carry (ramCpu 0xF0 0 0 0xFF 0 0 (fun _ => 0)) 0x20 (by decide) (by decide)).1⟩

/-- C2: for 8-bit `a` and `value` and either carry-in, after `ADC` the overflow
flag is set iff `signed8 a + signed8 value + carry_in` lies outside
`[-128, 127]`. -/
theorem ADC_overflow_signed (cpu : Cpu6502 σ) (value : Nat)
    (ha : cpu.a < 256) (hv : value < 256) :
    (ADC cpu value).status.overflow = true ↔
      (signed8 cpu.a + signed8 value + (flagVal cpu.status.carry : Int) < -128 ∨
       127 < signed8 cpu.a + signed8 value + (flagVal cpu.status.carry : Int)) := by
  have hc : flagVal cpu.status.carry ≤ 1 := by
    unfold flagVal; split <;> omega
  simp only [ADC, and_sign_bit_ne_zero, Nat.testBit_and, Nat.testBit_xor, toWord, signed8]
  simp only [testBit7_iff]
  rw [Nat.mod_eq_of_lt (by omega : cpu.a + value + flagVal cpu.status.carry < 65536)]
  by_cases h1 : cpu.a / 128 % 2 = 1 <;> by_cases h2 : value / 128 % 2 = 1 <;>
    by_cases h3 : (cpu.a + value + flagVal cpu.status.carry) / 128 % 2 = 1 <;>
    simp only [h1, h2, h3, decide_True, decide_False, Bool.xor_true, Bool.xor_false,
      Bool.true_xor, Bool.false_xor, Bool.not_true, Bool.not_false, Bool.and_true,
      Bool.and_false, Bool.true_and, Bool.false_and, true_iff, false_iff,
      Bool.false_eq_true] <;>
    split <;> split <;> omega

theorem ADC_overflow_signed_witness :
    (ramCpu 0x50 0 0 0xFF 0 0 (fun _ => 0)).a < 256 ∧ 0x50 < 256 ∧
    ((ADC (ramCpu 0x50 0 0 0xFF 0 0 (fun _ => 0)) 0x50).status.overflow = true ↔
      (signed8 0x50 + signed8 0x50 + (flagVal false : Int) < -128 ∨
       127 < signed8 0x50 + signed8 0x50 + (flagVal false : Int))) :=
  ⟨by decide, by decide,
    ADC_overflow_signed (ramCpu 0x50 0 0 0xFF 0 0 (fun _ => 0)) 0x50 (by decide) (by decide)⟩

/-- C3: for 8-bit `a` and `value` and either carry-in, after `SBC` the
accumulator is `(a - value - (1 - carry_in)) mod 256`, carry is set iff the
integer `a - value - (1 - carry_in)` is non-negative, and zero and negative are
those of the new accumulator. -/
theorem SBC_result_borrow (cpu : Cpu6502 σ) (value : Nat)
    (ha : cpu.a < 256) (hv : value < 256) :
    ((SBC cpu value).a : Int) =
      ((cpu.a : Int) - (value : Int) - (1 - (flagVal cpu.status.carry : Int))) % 256 ∧
    ((SBC cpu value).status.carry = true ↔
      0 ≤ (cpu.a : Int) - (value : Int) - (1 - (flagVal cpu.status.carry : Int))) ∧
    ((SBC cpu value).status.zero = true ↔ (SBC cpu value).a = 0) ∧
    ((SBC cpu value).status.negative = true ↔ bit7set (SBC cpu value).a) := by
  have hc : flagVal (!cpu.status.carry) = 1 - flagVal cpu.status.carry ∧
      flagVal cpu.status.carry ≤ 1 := by
    cases cpu.status.carry <;> simp [flagVal]
  simp only [SBC, and_sign_bit_ne_zero, testBit7_iff, and_0xFF, toWordI, toByte, bit7set,
    decide_eq_true_eq, beq_iff_eq, hc.1]
  exact ⟨by omega, by omega, trivial, trivial⟩

theorem SBC_result_borrow_witness :
    (ramCpu 0x10 0 0 0xFF 0 0 (fun _ => 0)).a < 256 ∧ 0x20 < 256 ∧
    (((SBC (ramCpu 0x10 0 0 0xFF 0 0 (fun _ => 0)) 0x20).a : Int) =
      (((ramCpu 0x10 0 0 0xFF 0 0 (fun _ => 0)).a : Int) - ((0x20 : Nat) : Int) -
        (1 - (flagVal (ramCpu 0x10 0 0 0xFF 0 0 (fun _ => 0)).status.carry : Int))) % 256) :=
  ⟨by decide, by decide,
    (SBC_result_borrow (ramCpu 0x10 0 0 0xFF 0 0 (fun _ => 0)) 0x20 (by decide) (by decide)).1⟩

/-- C4 fails as stated: from `a = 0`, carry clear, `ADC 0` then `SBC 0` with the
carry `ADC` produced leaves the accumulator at `0xFF`, not at the original 0. -/
theorem ADC_SBC_roundtrip_counterexample :
    (ramCpu 0 0 0 0xFF 0 0 (fun _ => 0)).status.decimal_mode = false ∧
    (SBC (ADC (ramCpu 0 0 0 0xFF 0 0 (fun _ => 0)) 0) 0).a = 0xFF ∧
    (SBC (ADC (ramCpu 0 0 0 0xFF 0 0 (fun _ => 0)) 0) 0).a ≠
      (ramCpu 0 0 0 0xFF 0 0 (fun _ => 0)).a := by
  decide

/-- C4, amended: for 8-bit `a` and `value` and either carry-in, `ADC value`
followed by `SBC value` with the carry `ADC` produced leaves the accumulator at
`(a + carry_in + carry_out - 1) mod 256`, where `carry_out` is the carry of
`ADC`; so the original `a` is restored exactly when `carry_out ≠ carry_in`. -/
theorem ADC_SBC_roundtrip_amended (cpu : Cpu6502 σ) (value : Nat)
    (ha : cpu.a < 256) (hv : value < 256) :
    (SBC (ADC cpu value) value).a =
      (cpu.a + flagVal cpu.status.carry + flagVal (ADC cpu value).status.carry + 255) % 256 ∧
    ((SBC (ADC cpu value) value).a = cpu.a ↔
      (ADC cpu value).status.carry ≠ cpu.status.carry) := by
  have hc : ∀ b : Bool, flagVal (!b) = 1 - flagVal b ∧ flagVal b ≤ 1 ∧
      (b = true ↔ flagVal b = 1) := by
    intro b; cases b <;> simp [flagVal]
  have hmod : (cpu.a + value + flagVal cpu.status.carry) % 65536 =
      cpu.a + value + flagVal cpu.status.carry :=
    Nat.mod_eq_of_lt (by have := (hc cpu.status.carry).2.1; omega)
  have h1 := (hc cpu.status.carry).2
  have h2 := hc (decide (cpu.a + value + flagVal cpu.status.carry > 0xFF))
  have h3 : (decide (cpu.a + value + flagVal cpu.status.carry > 0xFF) ≠ cpu.status.carry) ↔
      (flagVal (decide (cpu.a + value + flagVal cpu.status.carry > 0xFF)) ≠
        flagVal cpu.status.carry) := by
    cases cpu.status.carry <;>
      cases (decide (cpu.a + value + flagVal cpu.status.carry > 0xFF)) <;> simp [flagVal]
  have h4 : flagVal (decide (cpu.a + value + flagVal cpu.status.carry > 0xFF)) = 1 ↔
      cpu.a + value + flagVal cpu.status.carry > 0xFF := by
    rw [← h2.2.2]; simp
  simp only [SBC, ADC, and_0xFF, toWord, toWordI, toByte, hmod, h3, h2.1]
  constructor <;> omega

theorem ADC_SBC_roundtrip_amended_witness :
    (ramCpu 0xF0 0 0 0xFF 0 0 (fun _ => 0)).a < 256 ∧ 0x20 < 256 ∧
    ((SBC (ADC (ramCpu 0xF0 0 0 0xFF 0 0 (fun _ => 0)) 0x20) 0x20).a =
        (ramCpu 0xF0 0 0 0xFF 0 0 (fun _ => 0)).a ↔
      (ADC (ramCpu 0xF0 0 0 0xFF 0 0 (fun _ => 0)) 0x20).status.carry ≠
        (ramCpu 0xF0 0 0 0xFF 0 0 (fun _ => 0)).status.carry) :=
  ⟨by decide, by decide,
    (ADC_SBC_roundtrip_amended (ramCpu 0xF0 0 0 0xFF 0 0 (fun _ => 0)) 0x20
      (by decide) (by decide)).2⟩

/-- C5: for every combination of the six flags and for break flag 0 or 1, the
byte `pack_status` builds from the flags of `cpu`, unpacked by `unpack_status`
into any processor record `target` (whatever flags it held), sets all six flags
of the result to the flags of `cpu`; in particular unpacking into `cpu` itself
leaves the six flags as they were before packing. -/
theorem unpack_pack_status (cpu target : Cpu6502 σ) (break_flag : Nat)
    (hb : break_flag = 0 ∨ break_flag = 1) :
    ((unpack_status target (pack_status cpu break_flag)).status.carry = cpu.status.carry ∧
     (unpack_status target (pack_status cpu break_flag)).status.zero = cpu.status.zero ∧
     (unpack_status target (pack_status cpu break_flag)).status.interrupt_disable =
       cpu.status.interrupt_disable ∧
     (unpack_status target (pack_status cpu break_flag)).status.decimal_mode =
       cpu.status.decimal_mode ∧
     (unpack_status target (pack_status cpu break_flag)).status.overflow =
       cpu.status.overflow ∧
     (unpack_status target (pack_status cpu break_flag)).status.negative =
       cpu.status.negative) ∧
    ((unpack_status cpu (pack_status cpu break_flag)).status.carry = cpu.status.carry ∧
     (unpack_status cpu (pack_status cpu break_flag)).status.zero = cpu.status.zero ∧
     (unpack_status cpu (pack_status cpu break_flag)).status.interrupt_disable =
       cpu.status.interrupt_disable ∧
     (unpack_status cpu (pack_status cpu break_flag)).status.decimal_mode =
       cpu.status.decimal_mode ∧
     (unpack_status cpu (pack_status cpu break_flag)).status.overflow = cpu.status.overflow ∧
     (unpack_status cpu (pack_status cpu break_flag)).status.negative =
       cpu.status.negative) := by
  have h := status_bits_roundtrip cpu.status.carry cpu.status.zero cpu.status.interrupt_disable
    cpu.status.decimal_mode cpu.status.overflow cpu.status.negative break_flag hb
  exact ⟨h, h⟩

theorem unpack_pack_status_witness :
    ((1 : Nat) = 0 ∨ (1 : Nat) = 1) ∧
    (unpack_status (flagCpu ⟨false, true, false, true, false, true⟩)
      (pack_status (flagCpu ⟨true, false, true, false, true, false⟩) 1)).status.carry = true ∧
    (unpack_status (flagCpu ⟨false, true, false, true, false, true⟩)
      (pack_status (flagCpu ⟨true, false, true, false, true, false⟩) 1)).status.zero = false ∧
    (unpack_status (flagCpu ⟨false, true, false, true, false, true⟩)
      (pack_status (flagCpu ⟨true, false, true, false, true, false⟩) 1)).status.interrupt_disable
      = true ∧
    (unpack_status (flagCpu ⟨false, true, false, true, false, true⟩)
      (pack_status (flagCpu ⟨true, false, true, false, true, false⟩) 1)).status.decimal_mode
      = false ∧
    (unpack_status (flagCpu ⟨false, true, false, true, false, true⟩)
      (pack_status (flagCpu ⟨true, false, true, false, true, false⟩) 1)).status.overflow = true ∧
    (unpack_status (flagCpu ⟨false, true, false, true, false, true⟩)
      (pack_status (flagCpu ⟨true, false, true, false, true, false⟩) 1)).status.negative
      = false :=
  ⟨Or.inr rfl,
    (unpack_pack_status (flagCpu ⟨true, false, true, false, true, false⟩)
      (flagCpu ⟨false, true, false, true, false, true⟩) 1 (Or.inr rfl)).1⟩

/-- C6: for every `pc` and every offset byte `jump`, `Branch` leaves
`cycles = 2` and `pc = (pc + 2) mod 65536` when `flag ≠ condition`; when
`flag = condition` it leaves `pc = (pc + 2 + signed8 jump) mod 65536`, and
`cycles = 3` if the high byte of `(pc + 2) mod 65536` equals the high byte of
the new `pc`, `cycles = 4` otherwise. -/
theorem Branch_target_cycles (cpu : Cpu6502 σ) (flag condition jump : Nat)
    (hj : jump < 256) :
    (flag ≠ condition →
      (Branch cpu flag condition jump).cycles = 2 ∧
      (Branch cpu flag condition jump).pc = (cpu.pc + 2) % 65536) ∧
    (flag = condition →
      ((Branch cpu flag condition jump).pc : Int) =
        ((cpu.pc : Int) + 2 + signed8 jump) % 65536 ∧
      (Branch cpu flag condition jump).cycles =
        if (cpu.pc + 2) % 65536 / 256 = (Branch cpu flag condition jump).pc / 256
        then 3 else 4) := by
  constructor
  · intro hne
    simp [Branch, hne, toWord]
  · intro heq
    simp only [Branch, heq, if_true, and_sign_bit_ne_zero_iff, shr8, toWord, toWordI, toByte,
      signed8, ne_eq]
    by_cases hneg : jump / 128 % 2 = 1
    · simp only [hneg, if_true]
      have hlt : ¬ jump < 128 := by omega
      simp only [hlt, if_false]
      split <;> dsimp only <;> refine ⟨by omega, ?_⟩ <;> split <;> omega
    · simp only [hneg, if_false]
      have hlt : jump < 128 := by omega
      simp only [hlt, if_true]
      split <;> dsimp only <;> refine ⟨by omega, ?_⟩ <;> split <;> omega

theorem Branch_target_cycles_witness :
    4 < 256 ∧
    ((1 : Nat) = 1 →
      ((Branch (ramCpu 0 0 0 0xFF 0x12FA 0 (fun _ => 0)) 1 1 4).pc : Int) =
        (((ramCpu 0 0 0 0xFF 0x12FA 0 (fun _ => 0)).pc : Int) + 2 + signed8 4) % 65536 ∧
      (Branch (ramCpu 0 0 0 0xFF 0x12FA 0 (fun _ => 0)) 1 1 4).cycles =
        if ((ramCpu 0 0 0 0xFF 0x12FA 0 (fun _ => 0)).pc + 2) % 65536 / 256 =
            (Branch (ramCpu 0 0 0 0xFF 0x12FA 0 (fun _ => 0)) 1 1 4).pc / 256
        then 3 else 4) :=
  ⟨by decide,
    (Branch_target_cycles (ramCpu 0 0 0 0xFF 0x12FA 0 (fun _ => 0)) 1 1 4 (by decide)).2⟩

/-- C7 fails as stated: a taken `Branch` entered with `pc = $12FE` and offset
byte 4 leaves `cycles = 3`, not 4: the page is taken after `pc` has been
advanced by 2, and `$1300` and the target `$1304` lie in the same page. -/
theorem Branch_page_example_counterexample :
    (Branch (ramCpu 0 0 0 0xFF 0x12FE 0 (fun _ => 0)) 1 1 4).cycles = 3 ∧
    (Branch (ramCpu 0 0 0 0xFF 0x12FE 0 (fun _ => 0)) 1 1 4).pc = 0x1304 ∧
    (Branch (ramCpu 0 0 0 0xFF 0x12FE 0 (fun _ => 0)) 1 1 4).cycles ≠ 4 := by
  decide

/-- C7, amended: a taken `Branch` entered with `pc = $12FE` and offset byte 4
leaves `cycles = 3` (no page is crossed between `$1300` and `$1304`); a taken
`Branch` entered with `pc = $12FA` and offset byte 4 crosses from page `$12`
to page `$13` and leaves `cycles = 4`; a taken `Branch` entered with
`pc = $1200` and offset byte 4 leaves `cycles = 3`; a `Branch` that is not
taken leaves `cycles = 2`. -/
theorem Branch_page_example_amended (cpu : Cpu6502 σ) (flag condition jump : Nat)
    (hne : flag ≠ condition) :
    (Branch (ramCpu 0 0 0 0xFF 0x12FE 0 (fun _ => 0)) 1 1 4).cycles = 3 ∧
    (Branch (ramCpu 0 0 0 0xFF 0x12FA 0 (fun _ => 0)) 1 1 4).cycles = 4 ∧
    (Branch (ramCpu 0 0 0 0xFF 0x12FA 0 (fun _ => 0)) 1 1 4).pc = 0x1300 ∧
    (Branch (ramCpu 0 0 0 0xFF 0x1200 0 (fun _ => 0)) 1 1 4).cycles = 3 ∧
    (Branch (ramCpu 0 0 0 0xFF 0x1200 0 (fun _ => 0)) 1 1 4).pc = 0x1206 ∧
    (Branch cpu flag condition jump).cycles = 2 := by
  refine ⟨by decide, by decide, by decide, by decide, by decide, ?_⟩
  simp [Branch, hne]

theorem Branch_page_example_amended_witness :
    (0 : Nat) ≠ 1 ∧
    (Branch (ramCpu 0 0 0 0xFF 0x12FE 7 (fun _ => 0)) 0 1 4).cycles = 2 :=
  ⟨by decide,
    (Branch_page_example_amended (ramCpu 0 0 0 0xFF 0x12FE 7 (fun _ => 0)) 0 1 4
      (by decide)).2.2.2.2.2⟩

/-- C10: on plain RAM, for every 8-bit `sp` and byte `value`, `push` does not
abort, writes `value` at `0x100 + sp` (an address in `$0100-$01FF`) and leaves
`sp = (sp - 1) mod 256`, so from `sp = 0` it leaves `sp = 0xFF`; a `pull`
right after it does not abort either, returns `value` and restores `sp`. -/
theorem push_pull_wraparound (cpu : Cpu6502 (Nat → Nat)) (value : Nat)
    (hram : cpu.onRam) (hsp : cpu.sp < 256) (hv : value < 256) :
    ∃ c1 c2 : Cpu6502 (Nat → Nat),
      push cpu value = some c1 ∧
      c1.sys = cpu.write_memory cpu.sys (0x100 + cpu.sp) value ∧
      c1.sys (0x100 + cpu.sp) = value ∧
      (∀ i, i ≠ 0x100 + cpu.sp → c1.sys i = cpu.sys i) ∧
      0x100 ≤ 0x100 + cpu.sp ∧ 0x100 + cpu.sp ≤ 0x1FF ∧
      (c1.sp : Int) = ((cpu.sp : Int) - 1) % 256 ∧
      (cpu.sp = 0 → c1.sp = 0xFF) ∧
      pull c1 = some (value, c2) ∧
      c2.sp = cpu.sp ∧
      c2.sys = c1.sys := by
  obtain ⟨hr, hw, hbytes⟩ := hram
  have hs : (toByteI ((cpu.sp : Int) - 1) + 1) % 256 = cpu.sp := by
    simp only [toByteI]; omega
  have ha : (256 + cpu.sp) % 65536 = 256 + cpu.sp := Nat.mod_eq_of_lt (by omega)
  refine ⟨{ cpu.write (0x100 + cpu.sp) value with sp := toByteI ((cpu.sp : Int) - 1) },
    { cpu.write (0x100 + cpu.sp) value with sp := cpu.sp },
    push_eq cpu value, ?_, ?_, ?_, by omega, by omega, ?_, ?_, ?_, rfl, rfl⟩
  · simp [Cpu6502.write, toWord, toByte, Nat.mod_eq_of_lt hv, ha]
  · simp [Cpu6502.write, hw, ramWrite, toWord, toByte, Nat.mod_eq_of_lt hv, ha]
  · intro i hi
    simp [Cpu6502.write, hw, ramWrite, toWord, toByte, ha, hi]
  · simp only [Cpu6502.write, toByteI]
    omega
  · intro h0
    simp [Cpu6502.write, toByteI, h0]
  · rw [pull_eq]
    simp only [Cpu6502.write, Cpu6502.read, hr, hw, ramRead, ramWrite, hs, toWord, toByte,
      ha, if_true, Nat.mod_eq_of_lt hv, Nat.mod_mod]

theorem push_pull_wraparound_witness :
    (ramCpu 0 0 0 0x00 0 0 (fun _ => 0)).onRam ∧
    (ramCpu 0 0 0 0x00 0 0 (fun _ => 0)).sp < 256 ∧ 0xAB < 256 ∧
    ∃ c1 c2 : Cpu6502 (Nat → Nat),
      push (ramCpu 0 0 0 0x00 0 0 (fun _ => 0)) 0xAB = some c1 ∧
      c1.sys (0x100 + (ramCpu 0 0 0 0x00 0 0 (fun _ => 0)).sp) = 0xAB ∧
      c1.sp = 0xFF ∧
      pull c1 = some (0xAB, c2) ∧
      c2.sp = (ramCpu 0 0 0 0x00 0 0 (fun _ => 0)).sp := by
  have hram : (ramCpu 0 0 0 0x00 0 0 (fun _ => 0)).onRam :=
    ⟨rfl, rfl, fun _ => by show (0 : Nat) < 256; decide⟩
  obtain ⟨c1, c2, h1, _, h3, _, _, _, _, h8, h9, h10, _⟩ :=
    push_pull_wraparound (ramCpu 0 0 0 0x00 0 0 (fun _ => 0)) 0xAB hram (by decide) (by decide)
  exact ⟨hram, by decide, by decide, c1, c2, h1, h3, h8 rfl, h9, h10⟩

/-- C9: on plain RAM, for every `pc` and pointer low byte `L`, with `H` the byte
at `(pc + 2) mod 65536`, `JMPind` leaves
`pc = mem[H*256 + L] + 256 * mem[H*256 + ((L + 1) mod 256)]` and `cycles = 5`
(and memory as it was); for the pointer `$10FF` the low byte of the target comes
from `$10FF` and the high byte from `$1000`, not from `$1100`. -/
theorem JMPind_page_wrap (cpu : Cpu6502 (Nat → Nat)) (L : Nat)
    (hram : cpu.onRam) (hL : L < 256) :
    (JMPind cpu L).pc =
      cpu.sys (cpu.sys ((cpu.pc + 2) % 65536) * 256 + L) +
        256 * cpu.sys (cpu.sys ((cpu.pc + 2) % 65536) * 256 + (L + 1) % 256) ∧
    (JMPind cpu L).cycles = 5 ∧
    (JMPind cpu L).sys = cpu.sys ∧
    (cpu.sys ((cpu.pc + 2) % 65536) = 0x10 → L = 0xFF →
      (JMPind cpu L).pc = cpu.sys 0x10FF + 256 * cpu.sys 0x1000) ∧
    (JMPind (ramCpu 0 0 0 0xFF 0x2000 0 jmpindMem) 0xFF).pc = 0x1234 := by
  obtain ⟨hr, hw, hbytes⟩ := hram
  have hb : ∀ i, cpu.sys i % 256 = cpu.sys i := fun i => Nat.mod_eq_of_lt (hbytes i)
  have hH := hbytes ((cpu.pc + 2) % 65536)
  have hlo := hbytes (cpu.sys ((cpu.pc + 2) % 65536) * 256 + L)
  have hhi := hbytes (cpu.sys ((cpu.pc + 2) % 65536) * 256 + (L + 1) % 256)
  have hL1 : (L + 1) % 256 < 256 := Nat.mod_lt _ (by decide)
  have hp1 : (cpu.sys ((cpu.pc + 2) % 65536) * 256 + L) % 65536 =
      cpu.sys ((cpu.pc + 2) % 65536) * 256 + L := Nat.mod_eq_of_lt (by omega)
  have hp2 : (cpu.sys ((cpu.pc + 2) % 65536) * 256 + (L + 1) % 256) % 65536 =
      cpu.sys ((cpu.pc + 2) % 65536) * 256 + (L + 1) % 256 := Nat.mod_eq_of_lt (by omega)
  have hsh : (cpu.sys ((cpu.pc + 2) % 65536) <<< 8) % 65536 =
      cpu.sys ((cpu.pc + 2) % 65536) * 256 := by
    rw [Nat.shiftLeft_eq]; omega
  have hpc : (JMPind cpu L).pc =
      cpu.sys (cpu.sys ((cpu.pc + 2) % 65536) * 256 + L) +
        256 * cpu.sys (cpu.sys ((cpu.pc + 2) % 65536) * 256 + (L + 1) % 256) := by
    simp only [JMPind, Cpu6502.read, hr, ramRead, toWord, toByte, hb, hsh]
    rw [mul256_or _ _ hL, mul256_or _ _ hL1, hp1, hp2,
      Nat.mod_eq_of_lt (show cpu.sys _ < 65536 by omega), or_shl8 _ _ hlo]
    omega
  refine ⟨hpc, ?_, ?_, ?_, by decide⟩
  · simp [JMPind, Cpu6502.read]
  · simp [JMPind, Cpu6502.read, hr, ramRead]
  · intro h10 hFF
    rw [hpc, h10, hFF]

theorem JMPind_page_wrap_witness :
    (ramCpu 0 0 0 0xFF 0x2000 0 jmpindMem).onRam ∧ 0xFF < 256 ∧
    (JMPind (ramCpu 0 0 0 0xFF 0x2000 0 jmpindMem) 0xFF).pc =
      (ramCpu 0 0 0 0xFF 0x2000 0 jmpindMem).sys
          ((ramCpu 0 0 0 0xFF 0x2000 0 jmpindMem).sys
            (((ramCpu 0 0 0 0xFF 0x2000 0 jmpindMem).pc + 2) % 65536) * 256 + 0xFF) +
        256 * (ramCpu 0 0 0 0xFF 0x2000 0 jmpindMem).sys
          ((ramCpu 0 0 0 0xFF 0x2000 0 jmpindMem).sys
            (((ramCpu 0 0 0 0xFF 0x2000 0 jmpindMem).pc + 2) % 65536) * 256 + (0xFF + 1) % 256) :=
  have hram : (ramCpu 0 0 0 0xFF 0x2000 0 jmpindMem).onRam :=
    ⟨rfl, rfl, fun i => by
      show jmpindMem i < 256
      unfold jmpindMem
      split_ifs <;> decide⟩
  ⟨hram, by decide,
    (JMPind_page_wrap (ramCpu 0 0 0 0xFF 0x2000 0 jmpindMem) 0xFF hram (by decide)).1⟩

/-- C8: on plain RAM, for every `pc`, every 8-bit `sp` (the wrapping values 0
and 1 included) and every target low byte, `JSR` writes the high byte of
`(pc + 2) mod 65536` at `0x100 + sp` and then its low byte at
`0x100 + ((sp - 1) mod 256)`, leaves `sp = (sp - 2) mod 256` and sets `pc` to
(byte read at `(pc + 2) mod 65536`) `* 256 +` low byte; an `RTS` right after it
leaves `pc = (pc + 3) mod 65536` and the original `sp`.  Example: `pc = $1000`,
low byte `$34`, `$12` at `$1002`: `$10` and `$02` are pushed, `pc = $1234`, and
`RTS` gives `pc = $1003`.  (`(sp - k) mod 256` is written `(sp + 256 - k) % 256`.) -/
theorem JSR_RTS_pairing (cpu : Cpu6502 (Nat → Nat)) (address_lowbyte : Nat)
    (hram : cpu.onRam) (hsp : cpu.sp < 256) (hlo : address_lowbyte < 256) :
    (∃ c1 c2 : Cpu6502 (Nat → Nat),
      JSR cpu address_lowbyte = some c1 ∧
      c1.sys =
        ramWrite (ramWrite cpu.sys (0x100 + cpu.sp) ((cpu.pc + 2) % 65536 / 256))
          (0x100 + (cpu.sp + 255) % 256) ((cpu.pc + 2) % 65536 % 256) ∧
      c1.sys (0x100 + cpu.sp) = (cpu.pc + 2) % 65536 / 256 ∧
      c1.sys (0x100 + (cpu.sp + 255) % 256) = (cpu.pc + 2) % 65536 % 256 ∧
      c1.sp = (cpu.sp + 254) % 256 ∧
      c1.pc = c1.sys ((cpu.pc + 2) % 65536) * 256 + address_lowbyte ∧
      RTS c1 = some c2 ∧
      c2.pc = (cpu.pc + 3) % 65536 ∧
      c2.sp = cpu.sp) ∧
    (JSR (ramCpu 0 0 0 0xFF 0x1000 0 jsrMem) 0x34).map
        (fun c => (c.sys 0x1FF, c.sys 0x1FE, c.sp, c.pc)) = some (0x10, 0x02, 0xFD, 0x1234) ∧
    ((JSR (ramCpu 0 0 0 0xFF 0x1000 0 jsrMem) 0x34).bind RTS).map
        (fun c => (c.pc, c.sp)) = some (0x1003, 0xFF) := by
  obtain ⟨hr, hw, hbytes⟩ := hram
  refine ⟨?_, by decide, by decide⟩
  have hs1 : toByteI ((cpu.sp : Int) - 1) = (cpu.sp + 255) % 256 := by
    simp only [toByteI]; omega
  have hs2 : toByteI ((((cpu.sp + 255) % 256 : Nat) : Int) - 1) = (cpu.sp + 254) % 256 := by
    simp only [toByteI]; omega
  have ha1 : (256 + cpu.sp) % 65536 = 256 + cpu.sp := Nat.mod_eq_of_lt (by omega)
  have ha2 : (256 + (cpu.sp + 255) % 256) % 65536 = 256 + (cpu.sp + 255) % 256 :=
    Nat.mod_eq_of_lt (by omega)
  have hne : 256 + cpu.sp ≠ 256 + (cpu.sp + 255) % 256 := by omega
  have hq : (cpu.pc + 2) % 65536 / 256 % 256 = (cpu.pc + 2) % 65536 / 256 := by omega
  have hM : ∀ i, (ramWrite (ramWrite cpu.sys (0x100 + cpu.sp) ((cpu.pc + 2) % 65536 / 256))
      (0x100 + (cpu.sp + 255) % 256) ((cpu.pc + 2) % 65536 % 256)) i < 256 := by
    intro i
    simp only [ramWrite]
    split_ifs
    · omega
    · omega
    · exact hbytes i
  have hM1 : (ramWrite (ramWrite cpu.sys (0x100 + cpu.sp) ((cpu.pc + 2) % 65536 / 256))
      (0x100 + (cpu.sp + 255) % 256) ((cpu.pc + 2) % 65536 % 256)) (0x100 + cpu.sp) =
      (cpu.pc + 2) % 65536 / 256 := by
    simp only [ramWrite, if_neg hne, if_true]
  have hM2 : (ramWrite (ramWrite cpu.sys (0x100 + cpu.sp) ((cpu.pc + 2) % 65536 / 256))
      (0x100 + (cpu.sp + 255) % 256) ((cpu.pc + 2) % 65536 % 256))
      (0x100 + (cpu.sp + 255) % 256) = (cpu.pc + 2) % 65536 % 256 := by
    simp only [ramWrite, if_true]
  have hJ : JSR cpu address_lowbyte = some
      { cpu with
        cycles := 6
        sp := (cpu.sp + 254) % 256
        pc := (ramWrite (ramWrite cpu.sys (0x100 + cpu.sp) ((cpu.pc + 2) % 65536 / 256))
            (0x100 + (cpu.sp + 255) % 256) ((cpu.pc + 2) % 65536 % 256))
              ((cpu.pc + 2) % 65536) * 256 + address_lowbyte
        sys := ramWrite (ramWrite cpu.sys (0x100 + cpu.sp) ((cpu.pc + 2) % 65536 / 256))
            (0x100 + (cpu.sp + 255) % 256) ((cpu.pc + 2) % 65536 % 256) } := by
    simp only [JSR, push_eq, Option.bind_eq_bind, Option.some_bind, Option.pure_def,
      Cpu6502.write, Cpu6502.read, hr, hw, ramRead, hs1, hs2, toWord, toByte, shr8, and_0xFF,
      ha1, ha2, Nat.mod_mod, hq, Nat.mod_eq_of_lt (hM _),
      Nat.mod_eq_of_lt (show address_lowbyte < 65536 by omega), or_shl8 _ _ hlo,
      bytes_mod_word _ _ (hM _) hlo]
  have hs3 : ((cpu.sp + 254) % 256 + 1) % 256 = (cpu.sp + 255) % 256 := by omega
  have hs4 : ((cpu.sp + 255) % 256 + 1) % 256 = cpu.sp := by omega
  have hlo8 : (cpu.pc + 2) % 65536 % 256 < 256 := by omega
  have hfinal : (((cpu.pc + 2) % 65536 / 256 * 256 + (cpu.pc + 2) % 65536 % 256) % 65536 + 1) %
      65536 = (cpu.pc + 3) % 65536 := by omega
  refine ⟨_, { cpu with
        cycles := 6
        sp := cpu.sp
        pc := (cpu.pc + 3) % 65536
        sys := ramWrite (ramWrite cpu.sys (0x100 + cpu.sp) ((cpu.pc + 2) % 65536 / 256))
            (0x100 + (cpu.sp + 255) % 256) ((cpu.pc + 2) % 65536 % 256) },
    hJ, rfl, hM1, hM2, rfl, rfl, ?_, rfl, rfl⟩
  simp only [RTS, pull_eq, Option.bind_eq_bind, Option.some_bind, Option.pure_def,
    Cpu6502.read, hr, hw, ramRead, toWord, toByte, hs3, hs4, ha1, ha2, hM1, hM2, Nat.mod_mod,
    hq, Nat.mod_eq_of_lt (show (cpu.pc + 2) % 65536 % 256 < 65536 by omega),
    or_shl8 _ _ hlo8, hfinal]

theorem JSR_RTS_pairing_witness :
    (ramCpu 0 0 0 0x00 0x1000 0 jsrMem).onRam ∧
    (ramCpu 0 0 0 0x00 0x1000 0 jsrMem).sp < 256 ∧ 0x34 < 256 ∧
    ∃ c1 c2 : Cpu6502 (Nat → Nat),
      JSR (ramCpu 0 0 0 0x00 0x1000 0 jsrMem) 0x34 = some c1 ∧
      c1.sys 0x100 = 0x10 ∧
      c1.sys 0x1FF = 0x02 ∧
      c1.sp = 0xFE ∧
      RTS c1 = some c2 ∧
      c2.pc = 0x1003 ∧
      c2.sp = 0x00 := by
  have hram : (ramCpu 0 0 0 0x00 0x1000 0 jsrMem).onRam :=
    ⟨rfl, rfl, fun i => by
      show jsrMem i < 256
      unfold jsrMem
      split_ifs <;> decide⟩
  obtain ⟨c1, c2, h1, _, h3, h4, h5, _, h7, h8, h9⟩ :=
    (JSR_RTS_pairing (ramCpu 0 0 0 0x00 0x1000 0 jsrMem) 0x34 hram (by decide) (by decide)).1
  exact ⟨hram, by decide, by decide, c1, c2, h1, h3, h4, h5, h7, h8, h9⟩

/-- C16: two states that differ only in `decimal_mode` give, under `ADC` and
under `SBC`, the same accumulator, carry, zero, overflow and negative, and each
run leaves its own `decimal_mode` as it was. -/
theorem decimal_mode_ignored (cpu : Cpu6502 σ) (d : Bool) (value : Nat) :
    (ADC { cpu with status := { cpu.status with decimal_mode := d } } value).a =
      (ADC cpu value).a ∧
    (ADC { cpu with status := { cpu.status with decimal_mode := d } } value).status.carry =
      (ADC cpu value).status.carry ∧
    (ADC { cpu with status := { cpu.status with decimal_mode := d } } value).status.zero =
      (ADC cpu value).status.zero ∧
    (ADC { cpu with status := { cpu.status with decimal_mode := d } } value).status.overflow =
      (ADC cpu value).status.overflow ∧
    (ADC { cpu with status := { cpu.status with decimal_mode := d } } value).status.negative =
      (ADC cpu value).status.negative ∧
    (ADC { cpu with status := { cpu.status with decimal_mode := d } } value).status.decimal_mode
      = d ∧
    (ADC cpu value).status.decimal_mode = cpu.status.decimal_mode ∧
    (SBC { cpu with status := { cpu.status with decimal_mode := d } } value).a =
      (SBC cpu value).a ∧
    (SBC { cpu with status := { cpu.status with decimal_mode := d } } value).status.carry =
      (SBC cpu value).status.carry ∧
    (SBC { cpu with status := { cpu.status with decimal_mode := d } } value).status.zero =
      (SBC cpu value).status.zero ∧
    (SBC { cpu with status := { cpu.status with decimal_mode := d } } value).status.overflow =
      (SBC cpu value).status.overflow ∧
    (SBC { cpu with status := { cpu.status with decimal_mode := d } } value).status.negative =
      (SBC cpu value).status.negative ∧
    (SBC { cpu with status := { cpu.status with decimal_mode := d } } value).status.decimal_mode
      = d ∧
    (SBC cpu value).status.decimal_mode = cpu.status.decimal_mode :=
  ⟨rfl, rfl, rfl, rfl, rfl, rfl, rfl, rfl, rfl, rfl, rfl, rfl, rfl, rfl⟩

/-- C19: for an 8-bit accumulator and every 8-bit `value`, `SBC value` and
`ADC (value XOR 0xFF)` end in the same state: same accumulator, carry,
overflow, zero and negative, and every other field is left as it was. -/
theorem SBC_eq_ADC_complement (cpu : Cpu6502 σ) (value : Nat)
    (ha : cpu.a < 256) (hv : value < 256) :
    SBC cpu value = ADC cpu (value ^^^ 0xFF) ∧
    (SBC cpu value).x = cpu.x ∧ (SBC cpu value).y = cpu.y ∧
    (SBC cpu value).sp = cpu.sp ∧ (SBC cpu value).pc = cpu.pc ∧
    (SBC cpu value).cycles = cpu.cycles ∧ (SBC cpu value).sys = cpu.sys ∧
    (SBC cpu value).status.interrupt_disable = cpu.status.interrupt_disable ∧
    (SBC cpu value).status.decimal_mode = cpu.status.decimal_mode := by
  refine ⟨?_, rfl, rfl, rfl, rfl, rfl, rfl, rfl, rfl⟩
  have hc : flagVal (!cpu.status.carry) = 1 - flagVal cpu.status.carry ∧
      flagVal cpu.status.carry ≤ 1 := by
    cases cpu.status.carry <;> simp [flagVal]
  have hA : toByte (toWordI ((cpu.a : Int) - (value : Int) -
        (flagVal (!cpu.status.carry) : Int)) &&& 0xFF) =
      toByte (toWord (cpu.a + (255 - value) + flagVal cpu.status.carry) &&& 0xFF) := by
    simp only [and_0xFF, toByte, toWord, toWordI, hc.1]
    omega
  have hC : decide (toWordI ((cpu.a : Int) - (value : Int) -
        (flagVal (!cpu.status.carry) : Int)) < 0x100) =
      decide (toWord (cpu.a + (255 - value) + flagVal cpu.status.carry) > 0xFF) := by
    simp only [toWord, toWordI, hc.1, decide_eq_decide]
    omega
  have hO : (((cpu.a ^^^ value) &&& (cpu.a ^^^ toWordI ((cpu.a : Int) - (value : Int) -
        (flagVal (!cpu.status.carry) : Int))) &&& sign_bit) != 0) =
      (((cpu.a ^^^ toWord (cpu.a + (255 - value) + flagVal cpu.status.carry)) &&&
        ((255 - value) ^^^ toWord (cpu.a + (255 - value) + flagVal cpu.status.carry)) &&&
        sign_bit) != 0) := by
    simp only [and_sign_bit_ne_zero, Nat.testBit_and, Nat.testBit_xor]
    simp only [testBit7_iff, toWord, toWordI, hc.1]
    by_cases h1 : cpu.a / 128 % 2 = 1 <;> by_cases h2 : value / 128 % 2 = 1 <;>
      by_cases h3 : (255 - value) / 128 % 2 = 1 <;>
      by_cases h4 : (((cpu.a : Int) - (value : Int) -
        ((1 - flagVal cpu.status.carry : Nat) : Int)) % 65536).toNat / 128 % 2 = 1 <;>
      by_cases h5 : (cpu.a + (255 - value) + flagVal cpu.status.carry) % 65536 / 128 % 2 = 1 <;>
      simp only [h1, h2, h3, h4, h5, decide_True, decide_False, Bool.xor_true, Bool.xor_false,
        Bool.true_xor, Bool.false_xor, Bool.not_true, Bool.not_false, Bool.and_true,
        Bool.and_false, Bool.true_and, Bool.false_and] <;>
      first
        | rfl
        | (exfalso; omega)
  simp only [SBC, ADC, xor_0xFF value hv, hA, hC, hO]

theorem SBC_eq_ADC_complement_witness :
    (ramCpu 0x10 0 0 0xFF 0 0 (fun _ => 0)).a < 256 ∧ 0x20 < 256 ∧
    SBC (ramCpu 0x10 0 0 0xFF 0 0 (fun _ => 0)) 0x20 =
      ADC (ramCpu 0x10 0 0 0xFF 0 0 (fun _ => 0)) (0x20 ^^^ 0xFF) :=
  ⟨by decide, by decide,
    (SBC_eq_ADC_complement (ramCpu 0x10 0 0 0xFF 0 0 (fun _ => 0)) 0x20
      (by decide) (by decide)).1⟩

/-- C14: for 8-bit `r` and `v`, `CPr` sets zero iff `r = v`, carry iff `r ≥ v`
and negative iff bit 7 of `(r - v) mod 256` is set, so afterwards carry set and
zero clear holds iff `r > v`; it changes no register, not the bus owner, and
neither overflow, decimal_mode, interrupt_disable nor cycles. -/
theorem CPr_compare (cpu : Cpu6502 σ) (registre value : Nat)
    (hr : registre < 256) (hv : value < 256) :
    ((CPr cpu registre value).status.zero = true ↔ registre = value) ∧
    ((CPr cpu registre value).status.carry = true ↔ registre ≥ value) ∧
    ((CPr cpu registre value).status.negative = true ↔
      bit7set (((registre : Int) - (value : Int)) % 256).toNat) ∧
    (((CPr cpu registre value).status.carry = true ∧
        (CPr cpu registre value).status.zero = false) ↔ registre > value) ∧
    (CPr cpu registre value).a = cpu.a ∧
    (CPr cpu registre value).x = cpu.x ∧
    (CPr cpu registre value).y = cpu.y ∧
    (CPr cpu registre value).sp = cpu.sp ∧
    (CPr cpu registre value).pc = cpu.pc ∧
    (CPr cpu registre value).sys = cpu.sys ∧
    (CPr cpu registre value).status.overflow = cpu.status.overflow ∧
    (CPr cpu registre value).status.decimal_mode = cpu.status.decimal_mode ∧
    (CPr cpu registre value).status.interrupt_disable = cpu.status.interrupt_disable ∧
    (CPr cpu registre value).cycles = cpu.cycles := by
  refine ⟨?_, ?_, ?_, ?_, rfl, rfl, rfl, rfl, rfl, rfl, rfl, rfl, rfl, rfl⟩
  · simp [CPr]
  · simp [CPr]
  · simp only [CPr, land_sign_bit registre value hr hv, toByteI, bit7set, decide_eq_true_eq]
  · simp only [CPr, decide_eq_true_eq, beq_eq_false_iff_ne, ne_eq]
    omega

theorem CPr_compare_witness :
    0x10 < 256 ∧ 0x20 < 256 ∧
    ((CPr (ramCpu 0x10 0 0 0xFF 0 0 (fun _ => 0)) 0x10 0x20).status.negative = true ↔
      bit7set ((((0x10 : Nat) : Int) - ((0x20 : Nat) : Int)) % 256).toNat) :=
  ⟨by decide, by decide,
    (CPr_compare (ramCpu 0x10 0 0 0xFF 0 0 (fun _ => 0)) 0x10 0x20
      (by decide) (by decide)).2.2.1⟩

/-- C15: when the bus returns the byte `value` for `address`, `ROR` adds 2 to
`cycles`, writes `(value >> 1) | (carry_in << 7)` back to `address`, sets carry
iff bit 7 of the old byte was set, zero iff the written byte is 0 and negative
iff bit 7 of the written byte is set, which is the case iff the carry was set
on entry. -/
theorem ROR_effect (cpu : Cpu6502 σ) (address : Nat)
    (haddr : address < 65536) (hval : (cpu.read_memory cpu.sys address).1 < 256) :
    (ROR cpu address).cycles = cpu.cycles + 2 ∧
    (ROR cpu address).sys =
      cpu.write_memory (cpu.read_memory cpu.sys address).2 address
        (((cpu.read_memory cpu.sys address).1 >>> 1) ||| (flagVal cpu.status.carry <<< 7)) ∧
    ((ROR cpu address).status.carry = true ↔ bit7set (cpu.read_memory cpu.sys address).1) ∧
    ((ROR cpu address).status.zero = true ↔
      ((cpu.read_memory cpu.sys address).1 >>> 1) ||| (flagVal cpu.status.carry <<< 7) = 0) ∧
    ((ROR cpu address).status.negative = true ↔
      bit7set (((cpu.read_memory cpu.sys address).1 >>> 1) |||
        (flagVal cpu.status.carry <<< 7))) ∧
    (bit7set (((cpu.read_memory cpu.sys address).1 >>> 1) |||
        (flagVal cpu.status.carry <<< 7)) ↔ cpu.status.carry = true) := by
  have hc := flagVal_le cpu.status.carry
  have hc1 := flagVal_eq_one cpu.status.carry
  have ha : address % 65536 = address := Nat.mod_eq_of_lt haddr
  have hb : (cpu.read_memory cpu.sys address).1 % 256 = (cpu.read_memory cpu.sys address).1 :=
    Nat.mod_eq_of_lt hval
  have hw : ((cpu.read_memory cpu.sys address).1 / 2 + 128 * flagVal cpu.status.carry) % 256 =
      (cpu.read_memory cpu.sys address).1 / 2 + 128 * flagVal cpu.status.carry :=
    Nat.mod_eq_of_lt (by omega)
  simp only [ROR, Cpu6502.read, Cpu6502.write, toWord, toByte, ha, hb, ror_value _ _ hval, hw,
    bit7_eq_sign_bit, and_sign_bit_ne_zero, testBit7_iff, bit7set, decide_eq_true_eq,
    beq_iff_eq, true_and, ← hc1]
  omega

theorem ROR_effect_witness :
    0x0200 < 65536 ∧
    ((ramCpu 0 0 0 0xFF 0 0 (fun _ => 0x81)).read_memory
      (ramCpu 0 0 0 0xFF 0 0 (fun _ => 0x81)).sys 0x0200).1 < 256 ∧
    (ROR (ramCpu 0 0 0 0xFF 0 0 (fun _ => 0x81)) 0x0200).cycles =
      (ramCpu 0 0 0 0xFF 0 0 (fun _ => 0x81)).cycles + 2 ∧
    ((ROR (ramCpu 0 0 0 0xFF 0 0 (fun _ => 0x81)) 0x0200).status.carry = true ↔
      bit7set ((ramCpu 0 0 0 0xFF 0 0 (fun _ => 0x81)).read_memory
        (ramCpu 0 0 0 0xFF 0 0 (fun _ => 0x81)).sys 0x0200).1) :=
  ⟨by decide, by decide,
    (ROR_effect (ramCpu 0 0 0 0xFF 0 0 (fun _ => 0x81)) 0x0200 (by decide) (by decide)).1,
    (ROR_effect (ramCpu 0 0 0 0xFF 0 0 (fun _ => 0x81)) 0x0200 (by decide) (by decide)).2.2.1⟩

/-- C18: when the bus returns the byte `value` for `address`, `LSR` adds 2 to
`cycles`, writes `value >> 1` back to `address`, sets carry iff bit 0 of the old
byte was set, zero iff the written byte is 0, and leaves negative false. -/
theorem LSR_effect (cpu : Cpu6502 σ) (address : Nat)
    (haddr : address < 65536) (hval : (cpu.read_memory cpu.sys address).1 < 256) :
    (LSR cpu address).cycles = cpu.cycles + 2 ∧
    (LSR cpu address).sys =
      cpu.write_memory (cpu.read_memory cpu.sys address).2 address
        ((cpu.read_memory cpu.sys address).1 >>> 1) ∧
    ((LSR cpu address).status.carry = true ↔ (cpu.read_memory cpu.sys address).1 % 2 = 1) ∧
    ((LSR cpu address).status.zero = true ↔ (cpu.read_memory cpu.sys address).1 >>> 1 = 0) ∧
    (LSR cpu address).status.negative = false := by
  have ha : address % 65536 = address := Nat.mod_eq_of_lt haddr
  have hb : (cpu.read_memory cpu.sys address).1 % 256 = (cpu.read_memory cpu.sys address).1 :=
    Nat.mod_eq_of_lt hval
  have hw : (cpu.read_memory cpu.sys address).1 / 2 % 256 =
      (cpu.read_memory cpu.sys address).1 / 2 := Nat.mod_eq_of_lt (by omega)
  have hn : ¬ ((cpu.read_memory cpu.sys address).1 / 2 / 128 % 2 = 1) := by omega
  simp only [LSR, Cpu6502.read, Cpu6502.write, toWord, toByte, ha, hb, shr1, hw,
    and_bit0_ne_zero, and_sign_bit_ne_zero, testBit7_iff, decide_eq_true_eq, beq_iff_eq,
    true_and, hn, decide_False, and_true]

theorem LSR_effect_witness :
    0x0200 < 65536 ∧
    ((ramCpu 0 0 0 0xFF 0 0 (fun _ => 0x81)).read_memory
      (ramCpu 0 0 0 0xFF 0 0 (fun _ => 0x81)).sys 0x0200).1 < 256 ∧
    (LSR (ramCpu 0 0 0 0xFF 0 0 (fun _ => 0x81)) 0x0200).status.negative = false :=
  ⟨by decide, by decide,
    (LSR_effect (ramCpu 0 0 0 0xFF 0 0 (fun _ => 0x81)) 0x0200
      (by decide) (by decide)).2.2.2.2⟩

/-- C20: on plain RAM, for every address, stored byte `v` and carry-in, `ROL`
followed by `ROR` on the same address leaves the byte at the address equal to
`v` (and every other cell as it was); the carry after the pair is bit 6 of `v`,
whatever the carry was on entry. -/
theorem ROL_ROR_restores (cpu : Cpu6502 (Nat → Nat)) (address : Nat)
    (hram : cpu.onRam) (haddr : address < 65536) :
    (ROR (ROL cpu address) address).sys address = cpu.sys address ∧
    (∀ i, (ROR (ROL cpu address) address).sys i = cpu.sys i) ∧
    ((ROR (ROL cpu address) address).status.carry = true ↔ cpu.sys address / 64 % 2 = 1) := by
  obtain ⟨hr, hw, hbytes⟩ := hram
  have hc := flagVal_le cpu.status.carry
  have hv := hbytes address
  have ha : address % 65536 = address := Nat.mod_eq_of_lt haddr
  have hb : cpu.sys address % 256 = cpu.sys address := Nat.mod_eq_of_lt hv
  have hall : ∀ i, (ROR (ROL cpu address) address).sys i = cpu.sys i := by
    intro i
    simp only [ROR, ROL, Cpu6502.read, Cpu6502.write, hr, hw, ramRead, ramWrite, toWord, toByte,
      ha, hb, if_true, rol_value _ _ hc, Nat.mod_mod, bit7_eq_sign_bit, and_sign_bit_ne_zero,
      testBit7_iff]
    rw [ror_value _ _ (Nat.mod_lt _ (by decide))]
    by_cases hi : i = address
    · subst hi
      simp only [if_true]
      by_cases h7 : cpu.sys i / 128 % 2 = 1
      · simp only [h7, decide_True, flagVal_true]
        omega
      · simp only [h7, decide_False, flagVal_false]
        omega
    · simp only [hi, if_false]
  refine ⟨hall address, hall, ?_⟩
  simp only [ROR, ROL, Cpu6502.read, Cpu6502.write, hr, hw, ramRead, ramWrite, toWord, toByte,
    ha, hb, if_true, rol_value _ _ hc, Nat.mod_mod, bit7_eq_sign_bit, and_sign_bit_ne_zero,
    testBit7_iff, decide_eq_true_eq]
  omega

theorem ROL_ROR_restores_witness :
    (ramCpu 0 0 0 0xFF 0 0 (fun _ => 0x41)).onRam ∧ 0x0200 < 65536 ∧
    (ROR (ROL (ramCpu 0 0 0 0xFF 0 0 (fun _ => 0x41)) 0x0200) 0x0200).sys 0x0200 =
      (ramCpu 0 0 0 0xFF 0 0 (fun _ => 0x41)).sys 0x0200 ∧
    ((ROR (ROL (ramCpu 0 0 0 0xFF 0 0 (fun _ => 0x41)) 0x0200) 0x0200).status.carry = true ↔
      (ramCpu 0 0 0 0xFF 0 0 (fun _ => 0x41)).sys 0x0200 / 64 % 2 = 1) :=
  have hram : (ramCpu 0 0 0 0xFF 0 0 (fun _ => 0x41)).onRam :=
    ⟨rfl, rfl, fun _ => by show (0x41 : Nat) < 256; decide⟩
  ⟨hram, by decide,
    (ROL_ROR_restores (ramCpu 0 0 0 0xFF 0 0 (fun _ => 0x41)) 0x0200 hram (by decide)).1,
    (ROL_ROR_restores (ramCpu 0 0 0 0xFF 0 0 (fun _ => 0x41)) 0x0200 hram (by decide)).2.2⟩

/-- C11: with interrupt_disable set, `Cpu6502_IRQ` returns the state it was
given (registers, `pc`, `sp`, flags, cycles and the bus owner untouched, the bus
never called); with interrupt_disable clear it is `IRQ` with `brk = 0`, which
pushes the `pc` high byte, the `pc` low byte and `pack_status(0)` in that order,
clears decimal_mode, sets interrupt_disable and loads `pc` little-endian from
`$FFFE/$FFFF`. -/
theorem Cpu6502_IRQ_gating (cpu : Cpu6502 σ) (hsp : cpu.sp < 256) (hpc : cpu.pc < 65536) :
    (cpu.status.interrupt_disable = true → Cpu6502_IRQ cpu = some cpu) ∧
    (cpu.status.interrupt_disable = false →
      Cpu6502_IRQ cpu = IRQ cpu 0 ∧
      IRQ cpu 0 = some (interruptEntrySpec cpu 0 0xFFFE)) := by
  constructor
  · intro h
    simp [Cpu6502_IRQ, h]
  · intro h
    exact ⟨by simp [Cpu6502_IRQ, h], IRQ_eq cpu 0 hsp hpc⟩

theorem Cpu6502_IRQ_gating_witness :
    (ramCpu 0 0 0 0x01 0x1234 0 (fun _ => 0)).sp < 256 ∧
    (ramCpu 0 0 0 0x01 0x1234 0 (fun _ => 0)).pc < 65536 ∧
    ((ramCpu 0 0 0 0x01 0x1234 0 (fun _ => 0)).status.interrupt_disable = false →
      Cpu6502_IRQ (ramCpu 0 0 0 0x01 0x1234 0 (fun _ => 0)) =
        IRQ (ramCpu 0 0 0 0x01 0x1234 0 (fun _ => 0)) 0 ∧
      IRQ (ramCpu 0 0 0 0x01 0x1234 0 (fun _ => 0)) 0 =
        some (interruptEntrySpec (ramCpu 0 0 0 0x01 0x1234 0 (fun _ => 0)) 0 0xFFFE)) :=
  ⟨by decide, by decide,
    (Cpu6502_IRQ_gating (ramCpu 0 0 0 0x01 0x1234 0 (fun _ => 0)) (by decide) (by decide)).2⟩

/-- C12: on plain RAM, whatever interrupt_disable is, `Cpu6502_NMI` pushes the
`pc` high byte, the `pc` low byte and `pack_status(0)` of the flags on entry,
leaves `sp = (sp - 3) mod 256`, clears decimal_mode, sets interrupt_disable,
sets `pc = mem[$FFFA] + 256 * mem[$FFFB]` and leaves `a`, `x`, `y`, carry, zero,
overflow, negative and cycles as they were.  (`(sp - k) mod 256` is written
`(sp + 256 - k) % 256`.) -/
theorem NMI_unconditional (cpu : Cpu6502 (Nat → Nat))
    (hram : cpu.onRam) (hsp : cpu.sp < 256) (hpc : cpu.pc < 65536) :
    ∃ c : Cpu6502 (Nat → Nat),
      Cpu6502_NMI cpu = some c ∧
      c.sys =
        ramWrite (ramWrite (ramWrite cpu.sys (0x100 + cpu.sp) (cpu.pc / 256))
          (0x100 + (cpu.sp + 255) % 256) (cpu.pc % 256))
          (0x100 + (cpu.sp + 254) % 256) (pack_status cpu 0) ∧
      c.sp = (cpu.sp + 253) % 256 ∧
      c.status.decimal_mode = false ∧
      c.status.interrupt_disable = true ∧
      c.pc = cpu.sys 0xFFFA + 256 * cpu.sys 0xFFFB ∧
      c.a = cpu.a ∧ c.x = cpu.x ∧ c.y = cpu.y ∧
      c.status.carry = cpu.status.carry ∧
      c.status.zero = cpu.status.zero ∧
      c.status.overflow = cpu.status.overflow ∧
      c.status.negative = cpu.status.negative ∧
      c.cycles = cpu.cycles := by
  refine ⟨interruptEntrySpec cpu 0 0xFFFA, NMI_eq cpu hsp hpc,
    interruptEntrySpec_sys cpu 0 0xFFFA hram, rfl, rfl, rfl, ?_, rfl, rfl, rfl, rfl, rfl, rfl,
    rfl, rfl⟩
  obtain ⟨hr, hw, hbytes⟩ := hram
  have h1 : (0xFFFA : Nat) ≠ 256 + cpu.sp := by omega
  have h2 : (0xFFFA : Nat) ≠ 256 + (cpu.sp + 255) % 256 := by omega
  have h3 : (0xFFFA : Nat) ≠ 256 + (cpu.sp + 254) % 256 := by omega
  have h4 : (0xFFFA + 1 : Nat) ≠ 256 + cpu.sp := by omega
  have h5 : (0xFFFA + 1 : Nat) ≠ 256 + (cpu.sp + 255) % 256 := by omega
  have h6 : (0xFFFA + 1 : Nat) ≠ 256 + (cpu.sp + 254) % 256 := by omega
  simp only [interruptEntrySpec, hr, hw, ramRead, ramWrite, if_neg h1, if_neg h2, if_neg h3,
    if_neg h4, if_neg h5, if_neg h6, Nat.mod_eq_of_lt (hbytes _)]

theorem NMI_unconditional_witness :
    (ramCpu 0 0 0 0x01 0x1234 0 (fun _ => 0x80)).onRam ∧
    (ramCpu 0 0 0 0x01 0x1234 0 (fun _ => 0x80)).sp < 256 ∧
    (ramCpu 0 0 0 0x01 0x1234 0 (fun _ => 0x80)).pc < 65536 ∧
    ∃ c : Cpu6502 (Nat → Nat),
      Cpu6502_NMI (ramCpu 0 0 0 0x01 0x1234 0 (fun _ => 0x80)) = some c ∧
      c.sp = 0xFE ∧
      c.status.interrupt_disable = true ∧
      c.pc = 0x8080 := by
  have hram : (ramCpu 0 0 0 0x01 0x1234 0 (fun _ => 0x80)).onRam :=
    ⟨rfl, rfl, fun _ => by show (0x80 : Nat) < 256; decide⟩
  obtain ⟨c, h1, _, h3, _, h5, h6, _⟩ :=
    NMI_unconditional (ramCpu 0 0 0 0x01 0x1234 0 (fun _ => 0x80)) hram (by decide) (by decide)
  exact ⟨hram, by decide, by decide, c, h1, h3, h5, h6⟩

/-- C13: on plain RAM, for every `pc`, `sp` and flags, entering an interrupt
through `Cpu6502_NMI`, through `Cpu6502_IRQ` with interrupt_disable clear, or
through `IRQ` with `brk = 1`, and then executing `RTI`, gives back exactly the
`pc`, the `sp` and all six flags of before the interrupt. -/
theorem interrupt_RTI_inverse (cpu : Cpu6502 (Nat → Nat))
    (hram : cpu.onRam) (hsp : cpu.sp < 256) (hpc : cpu.pc < 65536) :
    (∃ c1 c2 : Cpu6502 (Nat → Nat),
      Cpu6502_NMI cpu = some c1 ∧ RTI c1 = some c2 ∧
      c2.pc = cpu.pc ∧ c2.sp = cpu.sp ∧ c2.status = cpu.status) ∧
    (cpu.status.interrupt_disable = false →
      ∃ c1 c2 : Cpu6502 (Nat → Nat),
        Cpu6502_IRQ cpu = some c1 ∧ RTI c1 = some c2 ∧
        c2.pc = cpu.pc ∧ c2.sp = cpu.sp ∧ c2.status = cpu.status) ∧
    (∃ c1 c2 : Cpu6502 (Nat → Nat),
      IRQ cpu 1 = some c1 ∧ RTI c1 = some c2 ∧
      c2.pc = cpu.pc ∧ c2.sp = cpu.sp ∧ c2.status = cpu.status) := by
  refine ⟨⟨_, _, NMI_eq cpu hsp hpc,
      RTI_after_entry cpu 0 0xFFFA hram hsp hpc (Or.inl rfl), rfl, rfl, rfl⟩, ?_,
    ⟨_, _, IRQ_eq cpu 1 hsp hpc,
      RTI_after_entry cpu 1 0xFFFE hram hsp hpc (Or.inr rfl), rfl, rfl, rfl⟩⟩
  intro h
  refine ⟨_, _, ?_, RTI_after_entry cpu 0 0xFFFE hram hsp hpc (Or.inl rfl), rfl, rfl, rfl⟩
  rw [← IRQ_eq cpu 0 hsp hpc]
  simp [Cpu6502_IRQ, h]

theorem interrupt_RTI_inverse_witness :
    (ramCpu 0 0 0 0x01 0x1234 0 (fun _ => 0x80)).onRam ∧
    (ramCpu 0 0 0 0x01 0x1234 0 (fun _ => 0x80)).sp < 256 ∧
    (ramCpu 0 0 0 0x01 0x1234 0 (fun _ => 0x80)).pc < 65536 ∧
    ∃ c1 c2 : Cpu6502 (Nat → Nat),
      IRQ (ramCpu 0 0 0 0x01 0x1234 0 (fun _ => 0x80)) 1 = some c1 ∧ RTI c1 = some c2 ∧
      c2.pc = 0x1234 ∧ c2.sp = 0x01 ∧
      c2.status = (ramCpu 0 0 0 0x01 0x1234 0 (fun _ => 0x80)).status := by
  have hram : (ramCpu 0 0 0 0x01 0x1234 0 (fun _ => 0x80)).onRam :=
    ⟨rfl, rfl, fun _ => by show (0x80 : Nat) < 256; decide⟩
  exact ⟨hram, by decide, by decide,
    (interrupt_RTI_inverse (ramCpu 0 0 0 0x01 0x1234 0 (fun _ => 0x80)) hram
      (by decide) (by decide)).2.2⟩

/-- C17: on plain RAM the status byte left on the stack by `PHP`, by `IRQ` with
`brk = 1`, by `Cpu6502_IRQ` when it fires and by `Cpu6502_NMI` has bit 5 set;
its bit 4 is 1 for `PHP` and `IRQ` with `brk = 1` and 0 for `Cpu6502_IRQ` and
`Cpu6502_NMI`; its bits 0, 1, 2, 3, 6, 7 are carry, zero, interrupt_disable,
decimal_mode, overflow, negative as they were on entry. -/
theorem pushed_status_layout (cpu : Cpu6502 (Nat → Nat))
    (hram : cpu.onRam) (hsp : cpu.sp < 256) (hpc : cpu.pc < 65536) :
    (∃ c : Cpu6502 (Nat → Nat), PHP cpu = some c ∧
      statusByteLayout cpu (c.sys (0x100 + cpu.sp)) true) ∧
    (∃ c : Cpu6502 (Nat → Nat), IRQ cpu 1 = some c ∧
      statusByteLayout cpu (c.sys (0x100 + (cpu.sp + 254) % 256)) true) ∧
    (cpu.status.interrupt_disable = false →
      ∃ c : Cpu6502 (Nat → Nat), Cpu6502_IRQ cpu = some c ∧
        statusByteLayout cpu (c.sys (0x100 + (cpu.sp + 254) % 256)) false) ∧
    (∃ c : Cpu6502 (Nat → Nat), Cpu6502_NMI cpu = some c ∧
      statusByteLayout cpu (c.sys (0x100 + (cpu.sp + 254) % 256)) false) := by
  have hcell := fun b v => interruptEntrySpec_status_cell cpu b v hram
  refine ⟨⟨_, PHP_eq cpu hsp, ?_⟩, ⟨_, IRQ_eq cpu 1 hsp hpc, ?_⟩, ?_,
    ⟨_, NMI_eq cpu hsp hpc, ?_⟩⟩
  · simp only [hram.2.1, ramWrite, if_true]
    exact pack_status_layout cpu true
  · rw [hcell]
    exact pack_status_layout cpu true
  · intro h
    refine ⟨interruptEntrySpec cpu 0 0xFFFE, ?_, ?_⟩
    · rw [← IRQ_eq cpu 0 hsp hpc]
      simp [Cpu6502_IRQ, h]
    · rw [hcell]
      exact pack_status_layout cpu false
  · rw [hcell]
    exact pack_status_layout cpu false

theorem pushed_status_layout_witness :
    (ramCpu 0 0 0 0x01 0x1234 0 (fun _ => 0x80)).onRam ∧
    (ramCpu 0 0 0 0x01 0x1234 0 (fun _ => 0x80)).sp < 256 ∧
    (ramCpu 0 0 0 0x01 0x1234 0 (fun _ => 0x80)).pc < 65536 ∧
    ∃ c : Cpu6502 (Nat → Nat),
      PHP (ramCpu 0 0 0 0x01 0x1234 0 (fun _ => 0x80)) = some c ∧
      statusByteLayout (ramCpu 0 0 0 0x01 0x1234 0 (fun _ => 0x80))
        (c.sys (0x100 + (ramCpu 0 0 0 0x01 0x1234 0 (fun _ => 0x80)).sp)) true := by
  have hram : (ramCpu 0 0 0 0x01 0x1234 0 (fun _ => 0x80)).onRam :=
    ⟨rfl, rfl, fun _ => by show (0x80 : Nat) < 256; decide⟩
  exact ⟨hram, by decide, by decide,
    (pushed_status_layout (ramCpu 0 0 0 0x01 0x1234 0 (fun _ => 0x80)) hram
      (by decide) (by decide)).1⟩

end Instructions
